import Mathlib

/-!
Verification development for the Salesbinder CLI cache-and-sync engine and
its statistical analytics engine.

The embedding is shallow: the TypeScript functions of
`packages/sdk/src/cache/cache-analytics.service.ts`,
`packages/sdk/src/cache/sqlite-cache.service.ts` and
`packages/sdk/src/cache/document-indexer.service.ts` are translated into
Lean definitions.  JavaScript numbers are modelled as rationals, Unix
timestamps and epoch-millisecond values as integers, and the SQLite store
as an explicit record of table contents.  `Math.sqrt` has no rational
counterpart, so every definition that uses it takes the square-root
function as an explicit parameter; all theorems about those definitions
hold for every interpretation of that parameter, in particular the real
one.
-/

namespace Spec2Proof

/-! ## Analytics engine (cache-analytics.service.ts) -/

/-- Embeds `calculateMean`: `0` for the empty list, otherwise sum divided by
length. -/
def calculateMean (values : List ℚ) : ℚ :=
  if values.length = 0 then 0 else values.sum / (values.length : ℚ)

/-- Embeds `calculateMedian`: sort ascending, take the middle element for odd
length, the average of the two middle elements for even length. -/
def calculateMedian (values : List ℚ) : ℚ :=
  if values.length = 0 then 0
  else
    let sorted := values.mergeSort (fun a b => decide (a ≤ b))
    let mid := sorted.length / 2
    if values.length % 2 ≠ 0 then sorted.getD mid 0
    else (sorted.getD (mid - 1) 0 + sorted.getD mid 0) / 2

/-- Embeds `calculateStdDev` (population standard deviation); the square root
is abstracted as a parameter. -/
def calculateStdDev (sqrt : ℚ → ℚ) (values : List ℚ) (mean : ℚ) : ℚ :=
  if values.length = 0 then 0
  else if values.length = 1 then 0
  else sqrt (calculateMean (values.map (fun v => (v - mean) * (v - mean))))

/-- Embeds `calculateGrowthRate`. -/
def calculateGrowthRate (earliest latest : ℚ) : ℚ :=
  if earliest = 0 then (if 0 < latest then 1 else 0)
  else (latest - earliest) / earliest

/-- Embeds `calculateVolatility` (coefficient of variation). -/
def calculateVolatility (sqrt : ℚ → ℚ) (values : List ℚ) : ℚ :=
  let mean := calculateMean values
  if mean = 0 then 0
  else calculateStdDev sqrt values mean / |mean|

inductive Momentum where
  | accelerating
  | decelerating
  | stable
deriving DecidableEq

/-- Embeds `determineMomentum`: fewer than two period changes means stable;
otherwise classify by the mean of successive differences against ±0.05. -/
def determineMomentum (periodChanges : List ℚ) : Momentum :=
  if periodChanges.length < 2 then .stable
  else
    let accelerationChanges := (periodChanges.zip periodChanges.tail).map (fun p => p.2 - p.1)
    let avgAcceleration := calculateMean accelerationChanges
    if avgAcceleration > 5/100 then .accelerating
    else if avgAcceleration < -(5/100) then .decelerating
    else .stable

inductive Direction where
  | upward
  | downward
  | stable
  | volatile
deriving DecidableEq

structure PeriodData where
  period : String
  quantitySold : ℚ
  revenue : ℚ
  avgMonthly : ℚ
deriving DecidableEq

structure TrendResult where
  direction : Direction
  growthRate : ℚ
  momentum : Momentum
  volatilityScore : ℚ
deriving DecidableEq

/-- Embeds the period-over-period percentage-change loop of `detectTrend`:
pairs with a zero base value contribute no percentage change. -/
def pctChanges (vals : List ℚ) : List ℚ :=
  (vals.zip vals.tail).filterMap
    (fun p => if p.1 ≠ 0 then some ((p.2 - p.1) / p.1) else none)

/-- Embeds `detectTrend`. -/
def detectTrend (sqrt : ℚ → ℚ) (periods : List PeriodData) : TrendResult :=
  match periods with
  | [] => ⟨.stable, 0, .stable, 0⟩
  | p :: rest =>
    let vals := (p :: rest).map (·.avgMonthly)
    let growthRate := calculateGrowthRate (vals.headD 0) (vals.getLastD 0)
    let volatilityScore := calculateVolatility sqrt vals
    let momentum := determineMomentum (pctChanges vals)
    let direction : Direction :=
      if volatilityScore > 3/10 then .volatile
      else if growthRate > 1/10 then .upward
      else if growthRate < -(1/10) then .downward
      else .stable
    ⟨direction, growthRate, momentum, volatilityScore⟩

/-- Modelled from the spec: direction classification ("volatile if volatility
exceeds a fixed threshold (0.3), else upward/downward if growth rate exceeds
±0.1, else stable"). -/
def specDirection (volatility growthRate : ℚ) : Direction :=
  if volatility > 3/10 then .volatile
  else if growthRate > 1/10 then .upward
  else if growthRate < -(1/10) then .downward
  else .stable

/-- Modelled from the spec: momentum classification ("average acceleration
above +0.05 → accelerating, below −0.05 → decelerating, else stable"), where
the accelerations are the successive differences of the period-over-period
changes. -/
def specMomentum (changes : List ℚ) : Momentum :=
  let diffs := (changes.zip changes.tail).map (fun p => p.2 - p.1)
  let avg := calculateMean diffs
  if avg > 5/100 then .accelerating
  else if avg < -(5/100) then .decelerating
  else .stable

/-- Embeds `calculateHerfindahlIndex`: sum of squared fractional shares. -/
def calculateHerfindahlIndex (shares : List ℚ) : ℚ :=
  if shares.length = 0 then 0
  else ((shares.map (fun s => s / 100)).map (fun s => s * s)).sum

/-! ## Claims C5, C6, C7 -/

/-- Claim C5: `calculateGrowthRate(earliest, latest)` equals
`(latest − earliest)/earliest` when `earliest ≠ 0`, equals `1` when
`earliest = 0` and `latest > 0`, and equals `0` otherwise; in particular
`calculateGrowthRate 0 100 = 1` and `calculateGrowthRate 0 0 = 0`. -/
theorem calculateGrowthRate_spec :
    (∀ earliest latest : ℚ,
      calculateGrowthRate earliest latest =
        if earliest ≠ 0 then (latest - earliest) / earliest
        else if 0 < latest then 1 else 0) ∧
    calculateGrowthRate 0 100 = 1 ∧ calculateGrowthRate 0 0 = 0 := by
  refine ⟨fun earliest latest => ?_, by norm_num [calculateGrowthRate],
    by norm_num [calculateGrowthRate]⟩
  by_cases h : earliest = 0 <;> simp [calculateGrowthRate, h]

/-- Auxiliary for C6: `determineMomentum` agrees with the spec-side momentum
classifier on every list of period changes, including lists with fewer than
two entries, where the mean of the (empty) difference list is `0`. -/
theorem determineMomentum_eq_spec (changes : List ℚ) :
    determineMomentum changes = specMomentum changes := by
  match changes with
  | [] => norm_num [determineMomentum, specMomentum, calculateMean]
  | [a] => norm_num [determineMomentum, specMomentum, calculateMean]
  | a :: b :: rest => simp [determineMomentum, specMomentum]

/-- Claim C6: for every non-empty sequence of period summaries, `detectTrend`
classifies direction by the volatility and first-to-last growth-rate
thresholds (0.3, ±0.1) and momentum by the ±0.05 average-acceleration
threshold over the period-over-period percentage changes. -/
theorem detectTrend_spec (sqrt : ℚ → ℚ) (periods : List PeriodData)
    (h : periods ≠ []) :
    detectTrend sqrt periods =
      { direction := specDirection
          (calculateVolatility sqrt (periods.map (·.avgMonthly)))
          (calculateGrowthRate ((periods.map (·.avgMonthly)).headD 0)
            ((periods.map (·.avgMonthly)).getLastD 0)),
        growthRate := calculateGrowthRate ((periods.map (·.avgMonthly)).headD 0)
          ((periods.map (·.avgMonthly)).getLastD 0),
        momentum := specMomentum (pctChanges (periods.map (·.avgMonthly))),
        volatilityScore := calculateVolatility sqrt (periods.map (·.avgMonthly)) } := by
  match periods with
  | [] => exact absurd rfl h
  | p :: rest =>
    simp only [detectTrend, specDirection, determineMomentum_eq_spec]

/-- Witness for C6 at a concrete one-period input. -/
theorem detectTrend_spec_witness :
    ([({ period := "p", quantitySold := 1, revenue := 1, avgMonthly := 1 } : PeriodData)] ≠ []) ∧
    detectTrend (fun q => q) [{ period := "p", quantitySold := 1, revenue := 1, avgMonthly := 1 }] =
      { direction := specDirection
          (calculateVolatility (fun q => q) [1])
          (calculateGrowthRate 1 1),
        growthRate := calculateGrowthRate 1 1,
        momentum := specMomentum (pctChanges [1]),
        volatilityScore := calculateVolatility (fun q => q) [1] } :=
  ⟨by simp, detectTrend_spec (fun q => q) [_] (by simp)⟩

/-- Auxiliary for C7: for a list of non-negative rationals, the sum of squares
is bounded by the square of the sum. -/
theorem sum_sq_le_sq_sum (l : List ℚ) (h : ∀ x ∈ l, 0 ≤ x) :
    (l.map (fun x => x * x)).sum ≤ l.sum * l.sum := by
  induction l with
  | nil => simp
  | cons a t ih =>
    have ha : 0 ≤ a := h a (List.mem_cons_self a t)
    have ht : ∀ x ∈ t, 0 ≤ x := fun x hx => h x (List.mem_cons_of_mem a hx)
    have hts : 0 ≤ t.sum := List.sum_nonneg ht
    have := ih ht
    simp only [List.map_cons, List.sum_cons]
    nlinarith [mul_nonneg ha hts]

/-- Auxiliary for C7: dividing every entry by 100 divides the sum by 100. -/
theorem sum_map_div100 (l : List ℚ) : (l.map (fun s => s / 100)).sum = l.sum / 100 := by
  induction l with
  | nil => simp
  | cons a t ih => simp [ih, add_div]

/-- Auxiliary for C7: a list of non-negative rationals with positive sum has a
positive member. -/
theorem exists_pos_of_sum_pos (l : List ℚ) (h : ∀ x ∈ l, 0 ≤ x)
    (hs : 0 < l.sum) : ∃ x ∈ l, 0 < x := by
  induction l with
  | nil => simp at hs
  | cons a t ih =>
    by_cases hap : 0 < a
    · exact ⟨a, List.mem_cons_self a t, hap⟩
    · have ha0 : a = 0 := le_antisymm (not_lt.mp hap) (h a (List.mem_cons_self a t))
      have ht : ∀ x ∈ t, 0 ≤ x := fun x hx => h x (List.mem_cons_of_mem a hx)
      have hts : 0 < t.sum := by
        simpa [ha0] using hs
      obtain ⟨x, hx, hxp⟩ := ih ht hts
      exact ⟨x, List.mem_cons_of_mem a hx, hxp⟩

/-- Claim C7: `calculateHerfindahlIndex shares` equals the sum of the squared
fractional shares; for non-negative shares summing to 100 it lies in `(0, 1]`,
the single share `[100]` yields exactly `1`, and the empty list yields `0`. -/
theorem herfindahl_spec :
    (∀ shares : List ℚ,
      calculateHerfindahlIndex shares = (shares.map (fun s => (s / 100) * (s / 100))).sum) ∧
    (∀ shares : List ℚ, (∀ s ∈ shares, 0 ≤ s) → shares.sum = 100 →
      0 < calculateHerfindahlIndex shares ∧ calculateHerfindahlIndex shares ≤ 1) ∧
    calculateHerfindahlIndex [100] = 1 ∧ calculateHerfindahlIndex [] = 0 := by
  have hform : ∀ shares : List ℚ,
      calculateHerfindahlIndex shares = (shares.map (fun s => (s / 100) * (s / 100))).sum := by
    intro shares
    cases shares with
    | nil => simp [calculateHerfindahlIndex]
    | cons a t => simp [calculateHerfindahlIndex, List.map_map, Function.comp_def]
  refine ⟨hform, fun shares hnn hsum => ?_, by norm_num [calculateHerfindahlIndex],
    by simp [calculateHerfindahlIndex]⟩
  have hx : ∀ x ∈ shares.map (fun s => s / 100), 0 ≤ x := by
    intro x hx
    obtain ⟨s, hs, rfl⟩ := List.mem_map.mp hx
    exact div_nonneg (hnn s hs) (by norm_num)
  have hsum' : (shares.map (fun s => s / 100)).sum = 1 := by
    rw [sum_map_div100, hsum]
    norm_num
  have hrw : calculateHerfindahlIndex shares =
      ((shares.map (fun s => s / 100)).map (fun x => x * x)).sum := by
    rw [hform]
    simp [List.map_map, Function.comp_def]
  constructor
  · rw [hrw]
    obtain ⟨x, hxm, hxp⟩ := exists_pos_of_sum_pos _ hx (by rw [hsum']; norm_num)
    have hmem : x * x ∈ (shares.map (fun s => s / 100)).map (fun x => x * x) :=
      List.mem_map.mpr ⟨x, hxm, rfl⟩
    have hle : x * x ≤ ((shares.map (fun s => s / 100)).map (fun x => x * x)).sum := by
      apply List.single_le_sum _ _ hmem
      intro y hy
      obtain ⟨z, _, rfl⟩ := List.mem_map.mp hy
      exact mul_self_nonneg z
    exact lt_of_lt_of_le (mul_pos hxp hxp) hle
  · rw [hrw]
    have := sum_sq_le_sq_sum _ hx
    rw [hsum'] at this
    simpa using this

/-- Witness for C7 at the concrete share list `[60, 40]`. -/
theorem herfindahl_spec_witness :
    (∀ s ∈ ([60, 40] : List ℚ), 0 ≤ s) ∧ ([60, 40] : List ℚ).sum = 100 ∧
    (0 < calculateHerfindahlIndex [60, 40] ∧ calculateHerfindahlIndex [60, 40] ≤ 1) :=
  ⟨by norm_num, by norm_num,
    herfindahl_spec.2.1 [60, 40] (by norm_num) (by norm_num)⟩

/-! ## Order-pattern analysis (cycle time, win rate)

Calendar dates are modelled as epoch-millisecond integers: `new Date(d)` on
an ISO date string yields such a value, and the arithmetic of `daysBetween`
and `daysSince` acts on it. -/

/-- Embeds `Math.round`: round half toward positive infinity, i.e. the floor
of `q + 1/2`. -/
def jsRound (q : ℚ) : ℤ := (q + 1/2).floor

/-- The rounding function expressed through the floor of the ordered field. -/
theorem jsRound_def (q : ℚ) : jsRound q = ⌊q + 1/2⌋ := rfl

/-- Characterisation of `jsRound` by bounds, for evaluating it on concrete
rationals. -/
theorem jsRound_eq_of (q : ℚ) (z : ℤ) (h1 : (z : ℚ) ≤ q + 1/2)
    (h2 : q + 1/2 < z + 1) : jsRound q = z := by
  rw [jsRound_def]
  exact Int.floor_eq_iff.mpr ⟨h1, h2⟩

/-- Rounding zero yields zero. -/
theorem jsRound_zero : jsRound 0 = 0 := jsRound_eq_of 0 0 (by norm_num) (by norm_num)

/-- Embeds `daysBetween`: absolute value of the floored day difference. -/
def daysBetween (d1 d2 : ℤ) : ℚ := ((Int.fdiv (d2 - d1) 86400000).natAbs : ℚ)

/-- Embeds `daysSince`, with the current time passed explicitly. -/
def daysSince (now d : ℤ) : ℤ := Int.fdiv (now - d) 86400000

structure OrderPatternRow where
  doc_id : String
  issue_date : ℤ
  customer_id : String
  context_id : ℤ
  doc_number : ℤ
deriving DecidableEq

/-- Embeds the `matches` computation of `calculateCycleTime`: for each
estimate, the day delta to the first invoice with equal `doc_number` and
`customer_id`, if any. -/
def cycleMatches (patterns : List OrderPatternRow) : List ℚ :=
  let estimates := patterns.filter (fun p => p.context_id = 4)
  let invoices := patterns.filter (fun p => p.context_id = 5)
  estimates.filterMap (fun est =>
    (invoices.find? (fun inv =>
        inv.doc_number = est.doc_number ∧ inv.customer_id = est.customer_id)).map
      (fun inv => daysBetween est.issue_date inv.issue_date))

structure CycleTimeResult where
  avg_estimate_to_invoice_days : ℚ
  median_days : ℚ
deriving DecidableEq

/-- Embeds `calculateCycleTime`. -/
def calculateCycleTime (patterns : List OrderPatternRow) : CycleTimeResult :=
  let estimates := patterns.filter (fun p => p.context_id = 4)
  let invoices := patterns.filter (fun p => p.context_id = 5)
  if estimates.length = 0 ∨ invoices.length = 0 then ⟨0, 0⟩
  else
    let ms := cycleMatches patterns
    if ms.length = 0 then ⟨0, 0⟩
    else ⟨(jsRound (calculateMean ms * 10) : ℚ) / 10,
          (jsRound (calculateMedian ms * 10) : ℚ) / 10⟩

/-- Embeds the `convertedIds` set of `calculateWinRate`: the distinct
`doc_id`s of estimates that have a matching invoice, in first-insertion
order. -/
def convertedDocIds (patterns : List OrderPatternRow) : List String :=
  let estimates := patterns.filter (fun p => p.context_id = 4)
  let invoices := patterns.filter (fun p => p.context_id = 5)
  estimates.foldl (fun acc est =>
    if invoices.any (fun inv =>
        inv.doc_number = est.doc_number ∧ inv.customer_id = est.customer_id) then
      (if est.doc_id ∈ acc then acc else acc ++ [est.doc_id])
    else acc) []

structure WinRateResult where
  estimates_created : ℕ
  converted_to_invoice : ℕ
  still_open_estimate : ℕ
  lost_estimate : ℕ
  win_rate : ℚ
deriving DecidableEq

/-- Embeds `calculateWinRate`, with the current time passed explicitly. -/
def calculateWinRate (now : ℤ) (patterns : List OrderPatternRow) : WinRateResult :=
  let estimates := patterns.filter (fun p => p.context_id = 4)
  if estimates.length = 0 then ⟨0, 0, 0, 0, 0⟩
  else
    let conv := convertedDocIds patterns
    let converted := conv.length
    let stillOpen := (estimates.filter (fun e =>
      e.doc_id ∉ conv ∧ daysSince now e.issue_date ≤ 30)).length
    let lost := (estimates.filter (fun e =>
      e.doc_id ∉ conv ∧ 30 < daysSince now e.issue_date)).length
    let total := estimates.length
    ⟨total, converted, stillOpen, lost,
      if 0 < total then (jsRound ((converted : ℚ) / (total : ℚ) * 1000) : ℚ) / 1000 else 0⟩

/-! ## Claim C8 -/

/-- Auxiliary for C8: a value of the form `round (10 q) / 10` times 10 is the
integer `round (10 q)`. -/
theorem jsRound_div_mul (q : ℚ) (c : ℚ) (hc : c ≠ 0) :
    ((jsRound q : ℚ) / c) * c = (jsRound q : ℚ) :=
  div_mul_cancel₀ _ hc

/-- Auxiliary for C8: with no estimates, the converted-id set is empty. -/
theorem convertedDocIds_of_no_estimates (patterns : List OrderPatternRow)
    (h : (patterns.filter (fun p => p.context_id = 4)).length = 0) :
    convertedDocIds patterns = [] := by
  rw [convertedDocIds, List.length_eq_zero.mp h]
  rfl

/-- Auxiliary for C8: the reported estimate total is the number of rows with
context 4. -/
theorem calculateWinRate_estimates_created (now : ℤ) (patterns : List OrderPatternRow) :
    (calculateWinRate now patterns).estimates_created =
      (patterns.filter (fun p => p.context_id = 4)).length := by
  rw [calculateWinRate]
  by_cases h : (patterns.filter (fun p => p.context_id = 4)).length = 0
  · rw [if_pos h, h]
  · rw [if_neg h]

/-- Auxiliary for C8: the reported conversion count is the size of the
converted-id set. -/
theorem calculateWinRate_converted (now : ℤ) (patterns : List OrderPatternRow) :
    (calculateWinRate now patterns).converted_to_invoice =
      (convertedDocIds patterns).length := by
  rw [calculateWinRate]
  by_cases h : (patterns.filter (fun p => p.context_id = 4)).length = 0
  · rw [if_pos h, convertedDocIds_of_no_estimates patterns h]
    rfl
  · rw [if_neg h]

/-- Auxiliary for C8: the reported win rate is the three-decimal rounding of
the converted-to-total ratio. -/
theorem calculateWinRate_win_rate (now : ℤ) (patterns : List OrderPatternRow) :
    (calculateWinRate now patterns).win_rate =
      (jsRound (((convertedDocIds patterns).length : ℚ) /
        (((patterns.filter (fun p => p.context_id = 4)).length : ℚ)) * 1000) : ℚ) / 1000 := by
  rw [calculateWinRate]
  by_cases h : (patterns.filter (fun p => p.context_id = 4)).length = 0
  · rw [if_pos h, convertedDocIds_of_no_estimates patterns h, h]
    simp [jsRound_zero]
  · rw [if_neg h]
    have hpos : 0 < (patterns.filter (fun p => p.context_id = 4)).length :=
      Nat.pos_of_ne_zero h
    simp only [if_pos hpos]

/-- Concrete order patterns for the C8 counterexample: three estimates, one
matching invoice. -/
def c8patterns : List OrderPatternRow :=
  [⟨"e1", 0, "c", 4, 1⟩, ⟨"e2", 0, "c", 4, 2⟩, ⟨"e3", 0, "c", 4, 3⟩,
   ⟨"i1", 0, "c", 5, 1⟩]

/-- Claim C8 counterexample: with three estimates and one matching invoice,
`calculateWinRate` reports a win rate of `0.333`, not the exact ratio `1/3` of
converted estimates to total estimates. -/
theorem calculateWinRate_rounds_cex :
    (calculateWinRate 0 c8patterns).estimates_created = 3 ∧
    (calculateWinRate 0 c8patterns).converted_to_invoice = 1 ∧
    (calculateWinRate 0 c8patterns).win_rate ≠ 1/3 := by
  refine ⟨by decide, by decide, ?_⟩
  rw [calculateWinRate_win_rate]
  have h1 : (convertedDocIds c8patterns).length = 1 := by decide
  have h2 : (c8patterns.filter (fun p => p.context_id = 4)).length = 3 := by decide
  rw [h1, h2]
  have h3 : jsRound ((1 : ℚ) / 3 * 1000) = 333 :=
    jsRound_eq_of _ 333 (by norm_num) (by norm_num)
  push_cast
  rw [h3]
  norm_num

/-- Claim C8 (amended): `calculateMean` returns the exact unrounded mean, but
`calculateCycleTime` rounds its mean and median day-deltas to one decimal
place and `calculateWinRate` rounds the win rate to three decimal places
inside the function: the returned values are exactly the half-up rounding of
the full-precision statistics, so in particular they are integer multiples of
`0.1` resp. `0.001`. -/
theorem analytics_rounding_amended (values : List ℚ) (patterns : List OrderPatternRow)
    (now : ℤ) :
    calculateMean values * (values.length : ℚ) = values.sum ∧
    (calculateCycleTime patterns).avg_estimate_to_invoice_days =
      (jsRound (calculateMean (cycleMatches patterns) * 10) : ℚ) / 10 ∧
    (calculateCycleTime patterns).median_days =
      (jsRound (calculateMedian (cycleMatches patterns) * 10) : ℚ) / 10 ∧
    (calculateWinRate now patterns).win_rate =
      (jsRound (((calculateWinRate now patterns).converted_to_invoice : ℚ) /
        ((calculateWinRate now patterns).estimates_created : ℚ) * 1000) : ℚ) / 1000 ∧
    (∃ k : ℤ, (calculateCycleTime patterns).avg_estimate_to_invoice_days * 10 = k) ∧
    (∃ k : ℤ, (calculateCycleTime patterns).median_days * 10 = k) ∧
    (∃ k : ℤ, (calculateWinRate now patterns).win_rate * 1000 = k) := by
  have hmean : calculateMean values * (values.length : ℚ) = values.sum := by
    rw [calculateMean]
    by_cases h : values.length = 0
    · rw [if_pos h]
      rcases List.eq_nil_of_length_eq_zero h with rfl
      simp
    · rw [if_neg h]
      have : (values.length : ℚ) ≠ 0 := Nat.cast_ne_zero.mpr h
      field_simp
  have hcycle :
      (calculateCycleTime patterns).avg_estimate_to_invoice_days =
        (jsRound (calculateMean (cycleMatches patterns) * 10) : ℚ) / 10 ∧
      (calculateCycleTime patterns).median_days =
        (jsRound (calculateMedian (cycleMatches patterns) * 10) : ℚ) / 10 := by
    rw [calculateCycleTime]
    by_cases h1 : (patterns.filter (fun p => p.context_id = 4)).length = 0 ∨
        (patterns.filter (fun p => p.context_id = 5)).length = 0
    · rw [if_pos h1]
      have hms : cycleMatches patterns = [] := by
        rw [cycleMatches]
        rcases h1 with h | h
        · rw [List.length_eq_zero.mp h]
          simp
        · rw [List.length_eq_zero.mp h]
          simp [List.filterMap_eq_nil_iff]
      rw [hms]
      constructor <;> simp [calculateMean, calculateMedian, jsRound_zero]
    · rw [if_neg h1]
      by_cases h2 : (cycleMatches patterns).length = 0
      · rw [if_pos h2]
        rw [List.length_eq_zero.mp h2]
        constructor <;> simp [calculateMean, calculateMedian, jsRound_zero]
      · rw [if_neg h2]
        exact ⟨rfl, rfl⟩
  have hwin :
      (calculateWinRate now patterns).win_rate =
        (jsRound (((calculateWinRate now patterns).converted_to_invoice : ℚ) /
          ((calculateWinRate now patterns).estimates_created : ℚ) * 1000) : ℚ) / 1000 := by
    rw [calculateWinRate_win_rate, calculateWinRate_converted,
      calculateWinRate_estimates_created]
  refine ⟨hmean, hcycle.1, hcycle.2, hwin, ?_, ?_, ?_⟩
  · exact ⟨jsRound (calculateMean (cycleMatches patterns) * 10), by
      rw [hcycle.1]; exact jsRound_div_mul _ _ (by norm_num)⟩
  · exact ⟨jsRound (calculateMedian (cycleMatches patterns) * 10), by
      rw [hcycle.2]; exact jsRound_div_mul _ _ (by norm_num)⟩
  · exact ⟨jsRound (((calculateWinRate now patterns).converted_to_invoice : ℚ) /
      ((calculateWinRate now patterns).estimates_created : ℚ) * 1000), by
      rw [hwin]; exact jsRound_div_mul _ _ (by norm_num)⟩

/-! ## Store (sqlite-cache.service.ts)

The SQLite store is modelled as an explicit record: the `documents` and
`item_documents` tables as lists in rowid (insertion) order, the
`AUTOINCREMENT` counter for `item_documents.id`, and the single-row
`cache_meta` table as an optional `CacheState`.  `PRAGMA foreign_keys = ON`
is part of `connect`, so inserts into `item_documents` whose `doc_id` has no
parent row fail; failing statements and failing transactions leave the store
unchanged (rollback), which the `Except Store Store` return type captures:
`.error s` is a thrown SQLite error with the store left at `s`. -/

/-- Embeds `sanitizeAccountName`: every character outside
`[a-zA-Z0-9_-]` is replaced by an underscore. -/
def isAllowedChar (c : Char) : Bool :=
  ('a' ≤ c && c ≤ 'z') || ('A' ≤ c && c ≤ 'Z') || ('0' ≤ c && c ≤ '9') ||
    c = '_' || c = '-'

/-- Embeds `sanitizeAccountName` (the regex replace acts per character). -/
def sanitizeAccountName (name : String) : String :=
  ⟨name.data.map (fun c => if isAllowedChar c then c else '_')⟩

/-- Embeds `resolveCachePath`, with the home directory passed explicitly. -/
def resolveCachePath (homedir accountName : String) : String :=
  homedir ++ "/.salesbinder/cache/salesbinder-" ++ accountName ++ ".db"

/-- Embeds the constructor's path computation: sanitize, then resolve. -/
def cachePath (homedir name : String) : String :=
  resolveCachePath homedir (sanitizeAccountName name)

structure DocumentRow where
  doc_id : String
  context_id : ℤ
  doc_number : ℤ
  issue_date : String
  customer_id : String
  modified : ℤ
deriving DecidableEq

structure ItemDocumentRow where
  id : ℕ
  item_id : String
  doc_id : String
  quantity : ℤ
  price : ℚ
deriving DecidableEq

/-- An `item_documents` row before the surrogate `id` is assigned
(`Omit<ItemDocumentRow, 'id'>` in the source). -/
structure ItemDocumentInput where
  item_id : String
  doc_id : String
  quantity : ℤ
  price : ℚ
deriving DecidableEq

structure CacheState where
  lastSync : ℤ
  lastFullSync : ℤ
  documentCount : ℕ
  itemDocumentCount : ℕ
  accountName : String
  schemaVersion : ℕ
deriving DecidableEq

structure Store where
  documents : List DocumentRow
  item_documents : List ItemDocumentRow
  nextItemId : ℕ
  cache_meta : Option CacheState
deriving DecidableEq

/-- The store right after `createSchema`: empty tables, `AUTOINCREMENT`
starting at 1. -/
def emptyStore : Store := ⟨[], [], 1, none⟩

/-- Forgets the auto-assigned surrogate key of an `item_documents` row. -/
def stripId (r : ItemDocumentRow) : ItemDocumentInput :=
  ⟨r.item_id, r.doc_id, r.quantity, r.price⟩

/-- Embeds `insertDocument` (`INSERT OR REPLACE`): a conflicting row is
deleted before the new row is appended; with foreign keys on, that delete
cascades to the conflicting document's `item_documents` rows. -/
def insertDocument (doc : DocumentRow) (s : Store) : Store :=
  let existed := s.documents.any (fun d => d.doc_id = doc.doc_id)
  { s with
    documents := s.documents.filter (fun d => d.doc_id ≠ doc.doc_id) ++ [doc],
    item_documents :=
      if existed then s.item_documents.filter (fun it => it.doc_id ≠ doc.doc_id)
      else s.item_documents }

/-- Embeds `getDocument` (`SELECT * FROM documents WHERE doc_id = ?`). -/
def getDocument (docId : String) (s : Store) : Option DocumentRow :=
  s.documents.find? (fun d => d.doc_id = docId)

/-- Embeds `getDocumentsByContext`. -/
def getDocumentsByContext (contextId : ℤ) (s : Store) : List DocumentRow :=
  s.documents.filter (fun d => d.context_id = contextId)

/-- Embeds `deleteDocument` (`DELETE FROM documents WHERE doc_id = ?`,
cascading to `item_documents` via the `ON DELETE CASCADE` foreign key). -/
def deleteDocument (docId : String) (s : Store) : Store :=
  { s with
    documents := s.documents.filter (fun d => d.doc_id ≠ docId),
    item_documents := s.item_documents.filter (fun it => it.doc_id ≠ docId) }

/-- Embeds `batchInsertDocuments` (a transaction of `INSERT OR REPLACE`
statements; none of them can fail, so the transaction always commits). -/
def batchInsertDocuments (docs : List DocumentRow) (s : Store) : Store :=
  docs.foldl (fun st d => insertDocument d st) s

/-- Embeds `batchDeleteDocuments`. -/
def batchDeleteDocuments (docIds : List String) (s : Store) : Store :=
  docIds.foldl (fun st i => deleteDocument i st) s

/-- Assigns consecutive `AUTOINCREMENT` ids to a batch of new rows. -/
def assignIds (nid : ℕ) : List ItemDocumentInput → List ItemDocumentRow
  | [] => []
  | it :: rest => ⟨nid, it.item_id, it.doc_id, it.quantity, it.price⟩ :: assignIds (nid + 1) rest

/-- Embeds `insertItemDocument`: the foreign-key check requires an existing
parent document, otherwise the statement throws and the store is unchanged. -/
def insertItemDocument (item : ItemDocumentInput) (s : Store) : Except Store Store :=
  if s.documents.any (fun d => d.doc_id = item.doc_id) then
    .ok { s with
      item_documents := s.item_documents ++ assignIds s.nextItemId [item],
      nextItemId := s.nextItemId + 1 }
  else .error s

/-- Embeds `getItemDocuments` (`SELECT * FROM item_documents WHERE doc_id = ?`). -/
def getItemDocuments (docId : String) (s : Store) : List ItemDocumentRow :=
  s.item_documents.filter (fun it => it.doc_id = docId)

/-- Embeds `deleteItemDocuments`. -/
def deleteItemDocuments (docId : String) (s : Store) : Store :=
  { s with item_documents := s.item_documents.filter (fun it => it.doc_id ≠ docId) }

/-- Embeds `batchInsertItemDocuments`: one transaction inserting each row;
the transaction commits only if every row passes the foreign-key check and
rolls back wholesale otherwise (the early return on an empty list coincides
with inserting nothing). -/
def batchInsertItemDocuments (items : List ItemDocumentInput) (s : Store) :
    Except Store Store :=
  if items.all (fun it => s.documents.any (fun d => d.doc_id = it.doc_id)) then
    .ok { s with
      item_documents := s.item_documents ++ assignIds s.nextItemId items,
      nextItemId := s.nextItemId + items.length }
  else .error s

/-- Embeds `getCacheState`. -/
def getCacheState (s : Store) : Option CacheState := s.cache_meta

/-- Embeds `setCacheState` (`INSERT OR REPLACE` on the singleton row). -/
def setCacheState (state : CacheState) (s : Store) : Store :=
  { s with cache_meta := some state }

/-- Embeds `getDocumentCount`. -/
def getDocumentCount (s : Store) : ℕ := s.documents.length

/-- Embeds `getItemDocumentCount`. -/
def getItemDocumentCount (s : Store) : ℕ := s.item_documents.length

/-- The spec's `replaceLineItems(documentId, items[])`: delete the document's
line items, then bulk-insert the new set (the write path used for every
synced document). -/
def replaceLineItems (docId : String) (items : List ItemDocumentInput) (s : Store) :
    Except Store Store :=
  batchInsertItemDocuments items (deleteItemDocuments docId s)

/-- The store an operation leaves behind, whether it returns or throws. -/
def exceptStore : Except Store Store → Store
  | .ok s => s
  | .error s => s

/-! ## Claim C10 -/

/-- Claim C10: sanitization replaces every character outside `[A-Za-z0-9_-]`
with an underscore (so the output consists of allowed characters only and
names made of allowed characters are fixed points), and it is not injective:
the distinct account names `"user@a"` and `"user!a"` resolve to the same
cache path for every home directory. -/
theorem sanitizeAccountName_spec :
    (∀ name : String,
      (sanitizeAccountName name).data =
        name.data.map (fun c => if isAllowedChar c then c else '_')) ∧
    (∀ name : String, ∀ c ∈ (sanitizeAccountName name).data, isAllowedChar c = true) ∧
    (∀ name : String, (∀ c ∈ name.data, isAllowedChar c = true) →
      sanitizeAccountName name = name) ∧
    (("user@a" : String) ≠ "user!a" ∧
      ∀ homedir : String, cachePath homedir "user@a" = cachePath homedir "user!a") := by
  refine ⟨fun name => rfl, fun name c hc => ?_, fun name h => ?_, by decide, fun homedir => ?_⟩
  · obtain ⟨c', _, rfl⟩ := List.mem_map.mp hc
    by_cases h : isAllowedChar c' = true
    · rw [if_pos h]
      exact h
    · rw [if_neg h]
      decide
  · cases name with
    | mk data =>
      show (⟨data.map _⟩ : String) = ⟨data⟩
      congr 1
      calc data.map (fun c => if isAllowedChar c then c else '_')
          = data.map id := List.map_congr_left (fun a ha => by simp [h a ha])
        _ = data := List.map_id data
  · show resolveCachePath homedir (sanitizeAccountName "user@a") =
      resolveCachePath homedir (sanitizeAccountName "user!a")
    have : sanitizeAccountName "user@a" = sanitizeAccountName "user!a" := by decide
    rw [this]

/-- Witness for C10: a name made of allowed characters is kept unchanged. -/
theorem sanitizeAccountName_spec_witness :
    (∀ c ∈ ("abc" : String).data, isAllowedChar c = true) ∧
    sanitizeAccountName "abc" = "abc" :=
  ⟨by decide, sanitizeAccountName_spec.2.2.1 "abc" (by decide)⟩

/-! ## Claim C2 -/

/-- Auxiliary: stripping the assigned surrogate ids recovers the input batch. -/
theorem assignIds_map_stripId (items : List ItemDocumentInput) :
    ∀ nid, (assignIds nid items).map stripId = items := by
  induction items with
  | nil => intro nid; rfl
  | cons it rest ih =>
    intro nid
    simp [assignIds, stripId, ih (nid + 1)]

/-- Auxiliary: every row produced by `assignIds` strips to a member of the
input batch. -/
theorem stripId_mem_of_mem_assignIds {r : ItemDocumentRow}
    (items : List ItemDocumentInput) :
    ∀ nid, r ∈ assignIds nid items → stripId r ∈ items := by
  induction items with
  | nil => intro nid h; cases h
  | cons it rest ih =>
    intro nid h
    rcases List.mem_cons.mp h with h | h
    · subst h
      exact List.mem_cons_self _ _
    · exact List.mem_cons_of_mem _ (ih (nid + 1) h)

/-- Claim C2 counterexample: on the empty store (no `documents` row `"d"`),
deleting and then batch-inserting a single line item for `"d"` fails the
foreign-key check, the transaction rolls back, and the store holds no line
items for `"d"` rather than the new set. -/
theorem replaceLineItems_cex :
    replaceLineItems "d" [⟨"i", "d", 1, 5⟩] emptyStore = .error emptyStore ∧
    (getItemDocuments "d"
      (exceptStore (replaceLineItems "d" [⟨"i", "d", 1, 5⟩] emptyStore))).map stripId ≠
      [⟨"i", "d", 1, 5⟩] :=
  ⟨rfl, by decide⟩

/-- Claim C2 (amended): provided the document row exists — as it always does
on the sync write path, which inserts the document before the batch insert —
replacement behaves as claimed: after `deleteItemDocuments(docId)` followed
by `batchInsertItemDocuments` of rows for `docId`, `getItemDocuments(docId)`
returns exactly the new item set (no survivors of the prior set), line items
of other documents are untouched, and the documents table is unchanged.
Without an existing document row and a non-empty new set, the insert fails
the foreign-key check and the document is left with no line items. -/
theorem replaceLineItems_amended (s : Store) (docId : String)
    (items : List ItemDocumentInput)
    (hdoc : ∃ d ∈ s.documents, d.doc_id = docId)
    (hitems : ∀ it ∈ items, it.doc_id = docId) :
    ∃ s', replaceLineItems docId items s = .ok s' ∧
      (getItemDocuments docId s').map stripId = items ∧
      (∀ other, other ≠ docId → getItemDocuments other s' = getItemDocuments other s) ∧
      s'.documents = s.documents := by
  obtain ⟨d, hd, hdid⟩ := hdoc
  have hcond : (items.all fun it =>
      (deleteItemDocuments docId s).documents.any fun d' => d'.doc_id = it.doc_id) = true := by
    rw [List.all_eq_true]
    intro it hit
    simp only [List.any_eq_true]
    exact ⟨d, hd, by simp [hdid, hitems it hit]⟩
  refine ⟨{ deleteItemDocuments docId s with
    item_documents := (deleteItemDocuments docId s).item_documents ++
      assignIds (deleteItemDocuments docId s).nextItemId items,
    nextItemId := (deleteItemDocuments docId s).nextItemId + items.length },
    ?_, ?_, ?_, ?_⟩
  · rw [replaceLineItems, batchInsertItemDocuments, if_pos hcond]
  · show ((((deleteItemDocuments docId s).item_documents ++
      assignIds (deleteItemDocuments docId s).nextItemId items).filter
        (fun it => it.doc_id = docId)).map stripId) = items
    rw [List.filter_append]
    have h1 : ((deleteItemDocuments docId s).item_documents.filter
        (fun it => it.doc_id = docId)) = [] := by
      rw [List.filter_eq_nil_iff]
      intro it hit
      have := List.of_mem_filter hit
      simp only [decide_not, Bool.not_eq_eq_eq_not, Bool.not_true, decide_eq_false_iff_not] at this
      simpa using this
    have h2 : ((assignIds (deleteItemDocuments docId s).nextItemId items).filter
        (fun it => it.doc_id = docId)) =
        assignIds (deleteItemDocuments docId s).nextItemId items := by
      rw [List.filter_eq_self]
      intro r hr
      have hmem := stripId_mem_of_mem_assignIds items _ hr
      have : (stripId r).doc_id = docId := hitems _ hmem
      simpa [stripId] using this
    rw [h1, h2, List.nil_append, assignIds_map_stripId]
  · intro other hother
    show (((deleteItemDocuments docId s).item_documents ++
      assignIds (deleteItemDocuments docId s).nextItemId items).filter
        (fun it => it.doc_id = other)) = getItemDocuments other s
    rw [List.filter_append]
    have h2 : ((assignIds (deleteItemDocuments docId s).nextItemId items).filter
        (fun it => it.doc_id = other)) = [] := by
      rw [List.filter_eq_nil_iff]
      intro r hr
      have hmem := stripId_mem_of_mem_assignIds items _ hr
      have hrd : (stripId r).doc_id = docId := hitems _ hmem
      simp only [stripId] at hrd
      simp [hrd]
      exact fun h => hother h.symm
    have h1 : ((deleteItemDocuments docId s).item_documents.filter
        (fun it => it.doc_id = other)) = getItemDocuments other s := by
      show ((s.item_documents.filter (fun it => it.doc_id ≠ docId)).filter
        (fun it => it.doc_id = other)) = s.item_documents.filter (fun it => it.doc_id = other)
      rw [List.filter_filter]
      apply List.filter_congr
      intro it _
      by_cases h : it.doc_id = other
      · have hne : it.doc_id ≠ docId := fun hh => hother (h.symm.trans hh)
        simp [h, hne]
        exact hother
      · simp [h]
    rw [h1, h2, List.append_nil]
  · rfl

/-- Witness for C2 at a concrete store holding document `"d"` and a stale
line item, replaced by one new item. -/
theorem replaceLineItems_amended_witness :
    (∃ d ∈ (⟨[⟨"d", 5, 1, "2024-01-01", "c", 0⟩], [⟨1, "x", "d", 2, 3⟩], 2, none⟩ :
        Store).documents, d.doc_id = "d") ∧
    (∀ it ∈ ([⟨"i", "d", 1, 5⟩] : List ItemDocumentInput), it.doc_id = "d") ∧
    ∃ s', replaceLineItems "d" [⟨"i", "d", 1, 5⟩]
        (⟨[⟨"d", 5, 1, "2024-01-01", "c", 0⟩], [⟨1, "x", "d", 2, 3⟩], 2, none⟩ : Store) = .ok s' ∧
      (getItemDocuments "d" s').map stripId = [⟨"i", "d", 1, 5⟩] ∧
      (∀ other, other ≠ "d" → getItemDocuments other s' =
        getItemDocuments other (⟨[⟨"d", 5, 1, "2024-01-01", "c", 0⟩],
          [⟨1, "x", "d", 2, 3⟩], 2, none⟩ : Store)) ∧
      s'.documents = (⟨[⟨"d", 5, 1, "2024-01-01", "c", 0⟩],
        [⟨1, "x", "d", 2, 3⟩], 2, none⟩ : Store).documents :=
  ⟨⟨⟨"d", 5, 1, "2024-01-01", "c", 0⟩, by decide, rfl⟩, by decide,
    replaceLineItems_amended _ "d" _
      ⟨⟨"d", 5, 1, "2024-01-01", "c", 0⟩, by decide, rfl⟩ (by decide)⟩

/-! ## Claim C9 -/

/-- Referential integrity: every `item_documents` row references an existing
`documents` row. -/
def FKok (s : Store) : Prop :=
  ∀ it ∈ s.item_documents, ∃ d ∈ s.documents, d.doc_id = it.doc_id

/-- The states reachable from a fresh store by the Store's operations
(failing operations leave the store at the state carried by `.error`). -/
inductive Reachable : Store → Prop where
  | empty : Reachable emptyStore
  | insertDoc (doc : DocumentRow) (s : Store) :
      Reachable s → Reachable (insertDocument doc s)
  | batchInsertDocs (docs : List DocumentRow) (s : Store) :
      Reachable s → Reachable (batchInsertDocuments docs s)
  | deleteDoc (docId : String) (s : Store) :
      Reachable s → Reachable (deleteDocument docId s)
  | batchDeleteDocs (docIds : List String) (s : Store) :
      Reachable s → Reachable (batchDeleteDocuments docIds s)
  | insertItemDoc (item : ItemDocumentInput) (s : Store) :
      Reachable s → Reachable (exceptStore (insertItemDocument item s))
  | batchInsertItemDocs (items : List ItemDocumentInput) (s : Store) :
      Reachable s → Reachable (exceptStore (batchInsertItemDocuments items s))
  | deleteItemDocs (docId : String) (s : Store) :
      Reachable s → Reachable (deleteItemDocuments docId s)
  | setState (c : CacheState) (s : Store) :
      Reachable s → Reachable (setCacheState c s)

/-- Auxiliary: `insertDocument` preserves referential integrity. -/
theorem FKok_insertDocument (doc : DocumentRow) (s : Store) (h : FKok s) :
    FKok (insertDocument doc s) := by
  intro it hit
  by_cases hex : s.documents.any (fun d => d.doc_id = doc.doc_id)
  · simp only [insertDocument, hex, if_pos] at hit ⊢
    have hmem := List.mem_filter.mp hit
    obtain ⟨d, hd, hdid⟩ := h it hmem.1
    have hne : it.doc_id ≠ doc.doc_id := by
      simpa using hmem.2
    refine ⟨d, List.mem_append_left _ (List.mem_filter.mpr ⟨hd, ?_⟩), hdid⟩
    simp [hdid, hne]
  · simp only [insertDocument, hex, if_neg, if_false] at hit ⊢
    obtain ⟨d, hd, hdid⟩ := h it hit
    have hne : d.doc_id ≠ doc.doc_id := by
      intro hh
      exact hex (List.any_eq_true.mpr ⟨d, hd, by simp [hh]⟩)
    exact ⟨d, List.mem_append_left _ (List.mem_filter.mpr ⟨hd, by simp [hne]⟩), hdid⟩

/-- Auxiliary: `deleteDocument` preserves referential integrity. -/
theorem FKok_deleteDocument (docId : String) (s : Store) (h : FKok s) :
    FKok (deleteDocument docId s) := by
  intro it hit
  have hmem := List.mem_filter.mp hit
  obtain ⟨d, hd, hdid⟩ := h it hmem.1
  have hne : it.doc_id ≠ docId := by simpa using hmem.2
  exact ⟨d, List.mem_filter.mpr ⟨hd, by simp [hdid, hne]⟩, hdid⟩

/-- Auxiliary: `batchInsertItemDocuments` preserves referential integrity,
whether the transaction commits or rolls back. -/
theorem FKok_batchInsertItemDocuments (items : List ItemDocumentInput) (s : Store)
    (h : FKok s) : FKok (exceptStore (batchInsertItemDocuments items s)) := by
  rw [batchInsertItemDocuments]
  by_cases hc : (items.all fun it => s.documents.any fun d => d.doc_id = it.doc_id) = true
  · rw [if_pos hc]
    intro it hit
    rcases List.mem_append.mp hit with hit | hit
    · exact h it hit
    · have hmem := stripId_mem_of_mem_assignIds items _ hit
      have := List.all_eq_true.mp hc _ hmem
      obtain ⟨d, hd, hdid⟩ := List.any_eq_true.mp this
      exact ⟨d, hd, by simpa [stripId] using hdid⟩
  · rw [if_neg hc]
    exact h

/-- Auxiliary: `insertItemDocument` preserves referential integrity. -/
theorem FKok_insertItemDocument (item : ItemDocumentInput) (s : Store)
    (h : FKok s) : FKok (exceptStore (insertItemDocument item s)) := by
  rw [insertItemDocument]
  by_cases hc : (s.documents.any fun d => d.doc_id = item.doc_id) = true
  · rw [if_pos hc]
    intro it hit
    rcases List.mem_append.mp hit with hit | hit
    · exact h it hit
    · have hmem := stripId_mem_of_mem_assignIds [item] _ hit
      have : stripId it = item := by simpa using hmem
      obtain ⟨d, hd, hdid⟩ := List.any_eq_true.mp hc
      refine ⟨d, hd, ?_⟩
      have : it.doc_id = item.doc_id := by
        have := congrArg ItemDocumentInput.doc_id this
        simpa [stripId] using this
      simp only [this]
      simpa using hdid
  · rw [if_neg hc]
    exact h

/-- Auxiliary: batch folds preserve referential integrity. -/
theorem FKok_foldl {β : Type} (f : Store → β → Store)
    (hf : ∀ b st, FKok st → FKok (f st b)) :
    ∀ (l : List β) (s : Store), FKok s → FKok (l.foldl f s) := by
  intro l
  induction l with
  | nil => intro s h; exact h
  | cons b rest ih => intro s h; exact ih _ (hf b s h)

/-- Auxiliary: filtering by a predicate implied by the search predicate does
not change the result of `find?`. -/
theorem find?_filter_of_imp {α : Type} (l : List α) (p q : α → Bool)
    (h : ∀ a, p a = true → q a = true) :
    (l.filter q).find? p = l.find? p := by
  induction l with
  | nil => rfl
  | cons a rest ih =>
    by_cases hq : q a = true
    · rw [List.filter_cons_of_pos hq]
      by_cases hp : p a = true
      · rw [List.find?_cons_of_pos _ hp, List.find?_cons_of_pos _ hp]
      · rw [List.find?_cons_of_neg _ (by simpa using hp),
          List.find?_cons_of_neg _ (by simpa using hp), ih]
    · rw [List.filter_cons_of_neg (by simpa using hq), ih,
        List.find?_cons_of_neg _ ?_]
      intro hpa
      exact hq (h a hpa)

/-- Claim C9: in every reachable store state, every `item_documents` row
references an existing `documents` row; and `deleteDocument(id)` removes that
document together with all of its line items, leaving every other document
and every other document's line items unchanged. -/
theorem store_integrity :
    (∀ s, Reachable s → FKok s) ∧
    (∀ (s : Store) (docId : String),
      getDocument docId (deleteDocument docId s) = none ∧
      getItemDocuments docId (deleteDocument docId s) = [] ∧
      (∀ other, other ≠ docId →
        getDocument other (deleteDocument docId s) = getDocument other s ∧
        getItemDocuments other (deleteDocument docId s) = getItemDocuments other s)) := by
  constructor
  · intro s hs
    induction hs with
    | empty => intro it hit; cases hit
    | insertDoc doc s _ ih => exact FKok_insertDocument doc s ih
    | batchInsertDocs docs s _ ih =>
      exact FKok_foldl _ (fun b st h => FKok_insertDocument b st h) docs s ih
    | deleteDoc docId s _ ih => exact FKok_deleteDocument docId s ih
    | batchDeleteDocs docIds s _ ih =>
      exact FKok_foldl _ (fun b st h => FKok_deleteDocument b st h) docIds s ih
    | insertItemDoc item s _ ih => exact FKok_insertItemDocument item s ih
    | batchInsertItemDocs items s _ ih => exact FKok_batchInsertItemDocuments items s ih
    | deleteItemDocs docId s _ ih =>
      intro it hit
      have hmem := List.mem_filter.mp hit
      exact ih it hmem.1
    | setState c s _ ih => exact ih
  · intro s docId
    refine ⟨?_, ?_, ?_⟩
    · rw [getDocument, List.find?_eq_none]
      intro d hd
      have := (List.mem_filter.mp hd).2
      simpa using this
    · rw [getItemDocuments]
      show List.filter _ (s.item_documents.filter fun it => it.doc_id ≠ docId) = []
      rw [List.filter_eq_nil_iff]
      intro it hit
      have := (List.mem_filter.mp hit).2
      simpa using this
    · intro other hother
      constructor
      · show (s.documents.filter fun d => d.doc_id ≠ docId).find?
          (fun d => d.doc_id = other) = s.documents.find? (fun d => d.doc_id = other)
        apply find?_filter_of_imp
        intro a ha
        have h1 : a.doc_id = other := of_decide_eq_true ha
        have h2 : a.doc_id ≠ docId := fun hh => hother (h1.symm.trans hh)
        simpa using h2
      · show ((s.item_documents.filter fun it => it.doc_id ≠ docId).filter
            fun it => it.doc_id = other) = s.item_documents.filter fun it => it.doc_id = other
        rw [List.filter_filter]
        apply List.filter_congr
        intro it _
        by_cases h : it.doc_id = other
        · have hne : it.doc_id ≠ docId := fun hh => hother (h.symm.trans hh)
          simp [h, hne]
          exact hother
        · simp [h]

/-- Witness for C9: integrity of the fresh store, and a concrete cascade
delete. -/
theorem store_integrity_witness :
    FKok emptyStore ∧
    getDocument "a" (deleteDocument "a"
      (⟨[⟨"a", 4, 1, "2024-01-01", "c", 0⟩], [⟨1, "i", "a", 1, 2⟩], 2, none⟩ : Store)) = none ∧
    getItemDocuments "a" (deleteDocument "a"
      (⟨[⟨"a", 4, 1, "2024-01-01", "c", 0⟩], [⟨1, "i", "a", 1, 2⟩], 2, none⟩ : Store)) = [] :=
  ⟨store_integrity.1 emptyStore Reachable.empty,
    (store_integrity.2 _ "a").1, (store_integrity.2 _ "a").2.1⟩

/-! ## Indexer (document-indexer.service.ts)

The remote source is modelled as fixed data: for each document kind, the
sequence of page-fetch outcomes the API returns (`ok docs`, the 404
end-of-pagination signal, or any other error).  `Document.modified` is the
epoch-millisecond value produced by parsing the ISO timestamp.  A document's
line items are carried on the document itself; when the listing omits them
the code re-fetches the same document from the same fixed data, so the
processed document is the same either way.  The store is threaded through
explicitly; `.error s` models an exception propagating to the caller with
the store left at `s` (everything already committed stays committed). -/

structure DocumentItem where
  item_id : Option String
  quantity : ℤ
  price : ℚ
deriving DecidableEq

structure Document where
  id : String
  context_id : ℤ
  document_number : ℤ
  issue_date : String
  customer_id : String
  modified : ℤ
  document_items : List DocumentItem
deriving DecidableEq

/-- JavaScript truthiness of the optional `item_id` used by the line-item
filter (`null`, `undefined` and the empty string are falsy). -/
def jsTruthy : Option String → Bool
  | none => false
  | some s => !s.isEmpty

/-- Embeds the issue-date normalization `issue_date.split('T')[0]`: the
prefix of the string before the first `'T'` (the whole string when no `'T'`
occurs, and the empty string stays empty, matching the falsy guard). -/
def dateOnly (s : String) : String := ⟨s.data.takeWhile (fun c => c ≠ 'T')⟩

/-- Embeds `processDocument`: normalize the document into a `documents` row
and its `item_documents` rows (dropping items without an `item_id`). -/
def processDocument (doc : Document) : DocumentRow × List ItemDocumentInput :=
  (⟨doc.id, doc.context_id, doc.document_number, dateOnly doc.issue_date,
    doc.customer_id, Int.fdiv doc.modified 1000⟩,
   (doc.document_items.filter (fun it => jsTruthy it.item_id)).map
     (fun it => ⟨it.item_id.getD "", doc.id, it.quantity, it.price⟩))

/-- The `documents` row produced for a document. -/
def docRowOf (d : Document) : DocumentRow := (processDocument d).1

/-- The `item_documents` rows produced for a document. -/
def itemRowsOf (d : Document) : List ItemDocumentInput := (processDocument d).2

/-- Embeds the per-document write sequence of the sync loops:
`deleteItemDocuments(docRow.doc_id)`, `insertDocument(docRow)`,
`batchInsertItemDocuments(itemRows)`; a thrown error is caught per record,
leaving whatever was already committed. -/
def syncDoc (s : Store) (d : Document) : Store :=
  let s1 := deleteItemDocuments (docRowOf d).doc_id s
  let s2 := insertDocument (docRowOf d) s1
  exceptStore (batchInsertItemDocuments (itemRowsOf d) s2)

/-- One page fetch outcome of the remote API. -/
inductive PageResult where
  | ok (docs : List Document)
  | notFound
  | err
deriving DecidableEq

/-- Embeds one kind's pagination loop: pages are consumed in order until a
404 (`notFound`, also modelling pages beyond the data), an empty page, or an
error, which aborts the whole sync; the processed-document and line-item
counters are threaded through. -/
def runCtx : List PageResult → Store → ℕ → ℕ → Except Store (Store × ℕ × ℕ)
  | [], s, nd, ni => .ok (s, nd, ni)
  | .notFound :: _, s, nd, ni => .ok (s, nd, ni)
  | .err :: _, s, _, _ => .error s
  | .ok docs :: rest, s, nd, ni =>
    if docs.isEmpty then .ok (s, nd, ni)
    else runCtx rest (docs.foldl syncDoc s) (nd + docs.length)
      (ni + (docs.map (fun d => (itemRowsOf d).length)).sum)

/-- The remote data set: the page sequences the API serves for the three
document kinds (Estimate, Invoice, Purchase Order), in the order `fullSync`
iterates them. -/
structure RemoteData where
  estimatePages : List PageResult
  invoicePages : List PageResult
  purchaseOrderPages : List PageResult
deriving DecidableEq

/-- Embeds `fullSync`: page through the three kinds, then write a fresh
Cache State with both timestamps set to now; an error propagates and leaves
the Cache State untouched. -/
def fullSync (account : String) (r : RemoteData) (now : ℤ) (s : Store) :
    Except Store Store :=
  match runCtx r.estimatePages s 0 0 with
  | .error s' => .error s'
  | .ok (s1, nd1, ni1) =>
    match runCtx r.invoicePages s1 nd1 ni1 with
    | .error s' => .error s'
    | .ok (s2, nd2, ni2) =>
      match runCtx r.purchaseOrderPages s2 nd2 ni2 with
      | .error s' => .error s'
      | .ok (s3, nd3, ni3) =>
        .ok (setCacheState ⟨now, now, nd3, ni3, account, 1⟩ s3)

/-- Embeds `deltaSync`; `c` is the Cache State read by `getCacheState()!` at
entry (delta sync runs only when one exists).  On success, `lastSync` is set
to now, the counts are recomputed from the store, and the remaining fields —
in particular `lastFullSync` — are preserved (`syncDeletions` is a no-op). -/
def deltaSync (c : CacheState) (r : RemoteData) (now : ℤ) (s : Store) :
    Except Store Store :=
  match runCtx r.estimatePages s 0 0 with
  | .error s' => .error s'
  | .ok (s1, nd1, ni1) =>
    match runCtx r.invoicePages s1 nd1 ni1 with
    | .error s' => .error s'
    | .ok (s2, nd2, ni2) =>
      match runCtx r.purchaseOrderPages s2 nd2 ni2 with
      | .error s' => .error s'
      | .ok (s3, _, _) =>
        .ok (setCacheState { c with
          lastSync := now
          documentCount := getDocumentCount s3
          itemDocumentCount := getItemDocumentCount s3 } s3)

/-- Embeds the constructor's threshold computation: environment variable
first, then the constructor parameter, then the 3600-second default. -/
def staleThreshold (envValue : Option ℤ) (staleThresholdSeconds : Option ℤ) : ℤ :=
  match envValue with
  | some v => v
  | none => staleThresholdSeconds.getD 3600

/-- Embeds `isCacheStale`, with the current time (in seconds) passed
explicitly. -/
def isCacheStale (threshold nowSec : ℤ) (meta : Option CacheState) : Bool :=
  match meta with
  | none => true
  | some st => st.lastSync < nowSec - threshold

/-! ### Characterisation of the sync loops -/

/-- Folding the per-document write sequence over a document list. -/
def foldDocs (docs : List Document) (s : Store) : Store := docs.foldl syncDoc s

/-- The ids of a document list. -/
def docIds (docs : List Document) : List String := docs.map (·.id)

/-- The subsequence of last occurrences: each document id kept once, at its
final position. -/
def lastOcc : List Document → List Document
  | [] => []
  | d :: rest => if d.id ∈ docIds rest then lastOcc rest else d :: lastOcc rest

/-- The documents a pagination loop actually processes: the concatenation of
the pages before the first 404, empty page, error, or end of data. -/
def consumedDocs : List PageResult → List Document
  | [] => []
  | .notFound :: _ => []
  | .err :: _ => []
  | .ok docs :: rest => if docs.isEmpty then [] else docs ++ consumedDocs rest

/-- Whether a pagination loop terminates without hitting an error page. -/
def pagesOk : List PageResult → Bool
  | [] => true
  | .notFound :: _ => true
  | .err :: _ => false
  | .ok docs :: rest => if docs.isEmpty then true else pagesOk rest

/-- The number of line-item rows produced for a document list. -/
def lineCount (docs : List Document) : ℕ :=
  (docs.map (fun d => (itemRowsOf d).length)).sum

/-- The concatenated line-item rows of a document list. -/
def flatRows : List Document → List ItemDocumentInput
  | [] => []
  | d :: rest => itemRowsOf d ++ flatRows rest

/-- The `documents` row of a processed document keeps the document's id. -/
theorem docRowOf_doc_id (d : Document) : (docRowOf d).doc_id = d.id := rfl

/-- Every produced line-item row references its document. -/
theorem itemRowsOf_doc_id (d : Document) :
    ∀ it ∈ itemRowsOf d, it.doc_id = d.id := by
  intro it hit
  obtain ⟨x, _, rfl⟩ := List.mem_map.mp hit
  rfl

/-- Filtering twice by the same predicate filters once. -/
theorem filter_idem {α : Type} (p : α → Bool) (l : List α) :
    (l.filter p).filter p = l.filter p := by
  rw [List.filter_filter]
  exact List.filter_congr fun x _ => Bool.and_self _

/-- The `documents` component of an `INSERT OR REPLACE`. -/
theorem insertDocument_documents (doc : DocumentRow) (s : Store) :
    (insertDocument doc s).documents =
      s.documents.filter (fun dr => dr.doc_id ≠ doc.doc_id) ++ [doc] := rfl

/-- The `item_documents` component of an `INSERT OR REPLACE` (the cascade on
the replaced row). -/
theorem insertDocument_item_documents (doc : DocumentRow) (s : Store) :
    (insertDocument doc s).item_documents =
      if s.documents.any (fun dr => dr.doc_id = doc.doc_id) then
        s.item_documents.filter (fun it => it.doc_id ≠ doc.doc_id)
      else s.item_documents := rfl

/-- The per-document write sequence in closed form: the document row is
replaced (re-appended in rowid order), its line items are replaced by freshly
numbered rows, the id counter advances, and the Cache State is untouched. -/
theorem syncDoc_eq (s : Store) (d : Document) :
    syncDoc s d =
      ⟨s.documents.filter (fun dr => dr.doc_id ≠ d.id) ++ [docRowOf d],
       s.item_documents.filter (fun it => it.doc_id ≠ d.id) ++
         assignIds s.nextItemId (itemRowsOf d),
       s.nextItemId + (itemRowsOf d).length,
       s.cache_meta⟩ := by
  have hcond : ((itemRowsOf d).all fun it =>
      (insertDocument (docRowOf d)
        (deleteItemDocuments (docRowOf d).doc_id s)).documents.any
        fun dr => dr.doc_id = it.doc_id) = true := by
    rw [List.all_eq_true]
    intro it hit
    rw [List.any_eq_true]
    refine ⟨docRowOf d, ?_, ?_⟩
    · rw [insertDocument_documents]
      exact List.mem_append_right _ (List.mem_singleton_self _)
    · simp [docRowOf_doc_id, itemRowsOf_doc_id d it hit]
  show exceptStore (batchInsertItemDocuments (itemRowsOf d)
    (insertDocument (docRowOf d) (deleteItemDocuments (docRowOf d).doc_id s))) = _
  rw [batchInsertItemDocuments, if_pos hcond]
  show ({ insertDocument (docRowOf d) (deleteItemDocuments (docRowOf d).doc_id s) with
    item_documents := (insertDocument (docRowOf d)
      (deleteItemDocuments (docRowOf d).doc_id s)).item_documents ++
      assignIds (insertDocument (docRowOf d)
        (deleteItemDocuments (docRowOf d).doc_id s)).nextItemId (itemRowsOf d),
    nextItemId := (insertDocument (docRowOf d)
      (deleteItemDocuments (docRowOf d).doc_id s)).nextItemId +
      (itemRowsOf d).length } : Store) = _
  have hitems : (insertDocument (docRowOf d)
      (deleteItemDocuments (docRowOf d).doc_id s)).item_documents =
      s.item_documents.filter (fun it => it.doc_id ≠ d.id) := by
    rw [insertDocument_item_documents]
    by_cases hex : ((deleteItemDocuments (docRowOf d).doc_id s).documents.any
        fun dr => dr.doc_id = (docRowOf d).doc_id) = true
    · rw [if_pos hex]
      exact filter_idem _ _
    · rw [if_neg hex]
      rfl
  simp only [Store.mk.injEq]
  refine ⟨rfl, ?_, rfl, rfl⟩
  rw [hitems]
  rfl

/-- Unfolding `docIds` on a cons. -/
theorem docIds_cons (d : Document) (σ : List Document) :
    docIds (d :: σ) = d.id :: docIds σ := rfl

/-- Members of the last-occurrence subsequence carry ids of the original
list. -/
theorem mem_lastOcc_docIds : ∀ (σ : List Document) (d : Document),
    d ∈ lastOcc σ → d.id ∈ docIds σ := by
  intro σ
  induction σ with
  | nil => intro d h; cases h
  | cons a σ' ih =>
    intro d h
    rw [lastOcc] at h
    by_cases hmem : a.id ∈ docIds σ'
    · rw [if_pos hmem] at h
      rw [docIds_cons]
      exact List.mem_cons_of_mem _ (ih d h)
    · rw [if_neg hmem] at h
      rw [docIds_cons]
      rcases List.mem_cons.mp h with h | h
      · subst h
        exact List.mem_cons_self _ _
      · exact List.mem_cons_of_mem _ (ih d h)

/-- Members of the flattened line-item rows carry ids of the document list. -/
theorem mem_flatRows_docIds : ∀ (σ : List Document) (x : ItemDocumentInput),
    x ∈ flatRows σ → x.doc_id ∈ docIds σ := by
  intro σ
  induction σ with
  | nil => intro x h; cases h
  | cons d σ' ih =>
    intro x h
    rw [flatRows] at h
    rw [docIds_cons]
    rcases List.mem_append.mp h with h | h
    · rw [itemRowsOf_doc_id d x h]
      exact List.mem_cons_self _ _
    · exact List.mem_cons_of_mem _ (ih x h)

/-- Composing the replace-filter for one id with the not-in-a-set filter
gives the filter for the extended set. -/
theorem filter_key_cons {α : Type} (k : α → String) (l : List α) (x : String)
    (ids : List String) :
    (l.filter (fun a => k a ≠ x)).filter (fun a => k a ∉ ids) =
      l.filter (fun a => k a ∉ x :: ids) := by
  rw [List.filter_filter]
  apply List.filter_congr
  intro y _
  by_cases h1 : k y = x <;> by_cases h2 : k y ∈ ids <;> simp [h1, h2]

/-- Specialisation of `filter_key_cons` to document rows. -/
theorem filter_doc_cons (l : List DocumentRow) (x : String) (ids : List String) :
    (l.filter (fun dr => dr.doc_id ≠ x)).filter (fun dr => dr.doc_id ∉ ids) =
      l.filter (fun dr => dr.doc_id ∉ x :: ids) :=
  filter_key_cons (fun dr => dr.doc_id) l x ids

/-- Specialisation of `filter_key_cons` to line-item rows. -/
theorem filter_item_cons (l : List ItemDocumentRow) (x : String) (ids : List String) :
    (l.filter (fun it => it.doc_id ≠ x)).filter (fun it => it.doc_id ∉ ids) =
      l.filter (fun it => it.doc_id ∉ x :: ids) :=
  filter_key_cons (fun it => it.doc_id) l x ids

/-- The pagination loop in closed form: it folds the consumed documents over
the store, threading the counters, and errors exactly when an error page is
reached before the loop terminates. -/
theorem runCtx_eq : ∀ (pages : List PageResult) (s : Store) (nd ni : ℕ),
    runCtx pages s nd ni =
      if pagesOk pages then
        .ok (foldDocs (consumedDocs pages) s, nd + (consumedDocs pages).length,
          ni + lineCount (consumedDocs pages))
      else .error (foldDocs (consumedDocs pages) s) := by
  intro pages
  induction pages with
  | nil => intro s nd ni; simp [runCtx, pagesOk, consumedDocs, foldDocs, lineCount]
  | cons p rest ih =>
    intro s nd ni
    cases p with
    | notFound => simp [runCtx, pagesOk, consumedDocs, foldDocs, lineCount]
    | err => simp [runCtx, pagesOk, consumedDocs, foldDocs, lineCount]
    | ok docs =>
      by_cases hempty : docs.isEmpty = true
      · simp [runCtx, pagesOk, consumedDocs, hempty, foldDocs, lineCount]
      · simp only [runCtx, pagesOk, consumedDocs, if_neg hempty]
        rw [ih]
        have hfold : foldDocs (docs ++ consumedDocs rest) s =
            foldDocs (consumedDocs rest) (docs.foldl syncDoc s) := by
          rw [foldDocs, foldDocs, List.foldl_append]
        have hlen : nd + (docs ++ consumedDocs rest).length =
            nd + docs.length + (consumedDocs rest).length := by
          rw [List.length_append, Nat.add_assoc]
        have hline : ni + lineCount (docs ++ consumedDocs rest) =
            ni + (docs.map (fun d => (itemRowsOf d).length)).sum +
              lineCount (consumedDocs rest) := by
          rw [lineCount, lineCount, List.map_append, List.sum_append, Nat.add_assoc]
        rw [hfold, hlen, hline]

/-- The `documents` table after a sync fold: rows whose ids were synced are
replaced by the last-processed version, in last-occurrence order at the end
of the table; other rows keep their place. -/
theorem foldDocs_documents : ∀ (σ : List Document) (s : Store),
    (foldDocs σ s).documents =
      s.documents.filter (fun dr => dr.doc_id ∉ docIds σ) ++
        (lastOcc σ).map docRowOf := by
  intro σ
  induction σ with
  | nil =>
    intro s
    show s.documents = _
    rw [lastOcc, List.map_nil, List.append_nil]
    have : s.documents.filter (fun dr => dr.doc_id ∉ docIds []) = s.documents := by
      rw [List.filter_eq_self]
      intro a _
      simp [docIds]
    rw [this]
  | cons d σ' ih =>
    intro s
    show (foldDocs σ' (syncDoc s d)).documents = _
    rw [ih, syncDoc_eq]
    show (s.documents.filter (fun dr => dr.doc_id ≠ d.id) ++
        [docRowOf d]).filter (fun dr => dr.doc_id ∉ docIds σ') ++
        (lastOcc σ').map docRowOf = _
    rw [List.filter_append, filter_doc_cons, ← docIds_cons]
    by_cases hmem : d.id ∈ docIds σ'
    · rw [show lastOcc (d :: σ') = lastOcc σ' from by rw [lastOcc, if_pos hmem]]
      have h1 : ([docRowOf d].filter (fun dr => dr.doc_id ∉ docIds σ')) = [] := by
        simp [List.filter_cons, docRowOf_doc_id, hmem]
      rw [h1, List.append_nil]
    · rw [show lastOcc (d :: σ') = d :: lastOcc σ' from by rw [lastOcc, if_neg hmem]]
      have h1 : ([docRowOf d].filter (fun dr => dr.doc_id ∉ docIds σ')) = [docRowOf d] := by
        simp [List.filter_cons, docRowOf_doc_id, hmem]
      rw [h1, List.map_cons, List.append_assoc]
      rfl

/-- The stripped `item_documents` table after a sync fold: line items of
synced documents are replaced by the last-processed set, grouped in
last-occurrence order at the end of the table; other rows keep their place. -/
theorem foldDocs_item_documents : ∀ (σ : List Document) (s : Store),
    ((foldDocs σ s).item_documents).map stripId =
      (s.item_documents.filter (fun it => it.doc_id ∉ docIds σ)).map stripId ++
        flatRows (lastOcc σ) := by
  intro σ
  induction σ with
  | nil =>
    intro s
    show (s.item_documents).map stripId = _
    rw [lastOcc, flatRows, List.append_nil]
    have h : s.item_documents.filter (fun it => it.doc_id ∉ docIds []) =
        s.item_documents := by
      rw [List.filter_eq_self]
      intro a _
      simp [docIds]
    rw [h]
  | cons d σ' ih =>
    intro s
    show ((foldDocs σ' (syncDoc s d)).item_documents).map stripId = _
    rw [ih, syncDoc_eq]
    show (((s.item_documents.filter (fun it => it.doc_id ≠ d.id) ++
        assignIds s.nextItemId (itemRowsOf d)).filter
          (fun it => it.doc_id ∉ docIds σ')).map stripId) ++ flatRows (lastOcc σ') = _
    rw [List.filter_append, List.map_append, filter_item_cons, ← docIds_cons]
    have hassign : ∀ r ∈ assignIds s.nextItemId (itemRowsOf d), r.doc_id = d.id := by
      intro r hr
      have hm := stripId_mem_of_mem_assignIds (itemRowsOf d) _ hr
      have h2 := itemRowsOf_doc_id d _ hm
      simpa [stripId] using h2
    by_cases hmem : d.id ∈ docIds σ'
    · rw [show lastOcc (d :: σ') = lastOcc σ' from by rw [lastOcc, if_pos hmem]]
      have h1 : ((assignIds s.nextItemId (itemRowsOf d)).filter
          (fun it => it.doc_id ∉ docIds σ')) = [] := by
        rw [List.filter_eq_nil_iff]
        intro r hr
        simp [hassign r hr, hmem]
      rw [h1, List.map_nil, List.append_nil]
    · rw [show lastOcc (d :: σ') = d :: lastOcc σ' from by rw [lastOcc, if_neg hmem]]
      have h1 : ((assignIds s.nextItemId (itemRowsOf d)).filter
          (fun it => it.doc_id ∉ docIds σ')) =
          assignIds s.nextItemId (itemRowsOf d) := by
        rw [List.filter_eq_self]
        intro r hr
        simp [hassign r hr, hmem]
      rw [h1, assignIds_map_stripId, List.append_assoc]
      rw [show flatRows (d :: lastOcc σ') = itemRowsOf d ++ flatRows (lastOcc σ') from rfl]

/-- The sync fold never touches the Cache State. -/
theorem foldDocs_cache_meta : ∀ (σ : List Document) (s : Store),
    (foldDocs σ s).cache_meta = s.cache_meta := by
  intro σ
  induction σ with
  | nil => intro s; rfl
  | cons d σ' ih =>
    intro s
    show (foldDocs σ' (syncDoc s d)).cache_meta = _
    rw [ih, syncDoc_eq]

/-- Stripping ids commutes with filtering on an id set (rows keep their
`doc_id`). -/
theorem map_stripId_filter_notMem (ids : List String) :
    ∀ l : List ItemDocumentRow,
      (l.filter (fun it => it.doc_id ∉ ids)).map stripId =
        (l.map stripId).filter (fun it => it.doc_id ∉ ids) := by
  intro l
  induction l with
  | nil => rfl
  | cons a t ih =>
    simp only [decide_not] at ih
    by_cases h : a.doc_id ∈ ids
    · simp [List.filter_cons, h, stripId, ih]
    · simp [List.filter_cons, h, stripId, ih]

/-- Stripping ids commutes with filtering on one id. -/
theorem map_stripId_filter_eq (docId : String) :
    ∀ l : List ItemDocumentRow,
      (l.filter (fun it => it.doc_id = docId)).map stripId =
        (l.map stripId).filter (fun it => it.doc_id = docId) := by
  intro l
  induction l with
  | nil => rfl
  | cons a t ih =>
    by_cases h : a.doc_id = docId
    · simp [List.filter_cons, h, stripId, ih]
    · simp [List.filter_cons, h, stripId, ih]

/-- `docIds` of the last-occurrence subsequence is contained in `docIds`. -/
theorem mem_docIds_lastOcc (σ : List Document) (x : String)
    (h : x ∈ docIds (lastOcc σ)) : x ∈ docIds σ := by
  obtain ⟨d, hd, rfl⟩ := List.mem_map.mp h
  exact mem_lastOcc_docIds σ d hd

/-- All documents a full run processes, in processing order across the three
kinds. -/
def allDocs (r : RemoteData) : List Document :=
  consumedDocs r.estimatePages ++ consumedDocs r.invoicePages ++
    consumedDocs r.purchaseOrderPages

/-- Folding over a concatenation folds the parts in order. -/
theorem foldDocs_append (a b : List Document) (s : Store) :
    foldDocs (a ++ b) s = foldDocs b (foldDocs a s) := by
  rw [foldDocs, foldDocs, foldDocs, List.foldl_append]

/-- `lineCount` is additive. -/
theorem lineCount_append (a b : List Document) :
    lineCount (a ++ b) = lineCount a + lineCount b := by
  rw [lineCount, lineCount, lineCount, List.map_append, List.sum_append]

/-- `fullSync` in closed form: if no error page is reached it folds all
consumed documents and writes a fresh Cache State; otherwise it propagates
the error with whatever was committed up to that point. -/
theorem fullSync_eq (account : String) (r : RemoteData) (now : ℤ) (s : Store) :
    fullSync account r now s =
      if pagesOk r.estimatePages then
        if pagesOk r.invoicePages then
          if pagesOk r.purchaseOrderPages then
            .ok (setCacheState
              ⟨now, now, (allDocs r).length, lineCount (allDocs r), account, 1⟩
              (foldDocs (allDocs r) s))
          else .error (foldDocs (allDocs r) s)
        else .error (foldDocs (consumedDocs r.estimatePages ++
          consumedDocs r.invoicePages) s)
      else .error (foldDocs (consumedDocs r.estimatePages) s) := by
  rw [fullSync]
  rw [runCtx_eq r.estimatePages]
  by_cases h1 : pagesOk r.estimatePages = true
  · rw [if_pos h1, if_pos h1]
    dsimp only
    rw [runCtx_eq r.invoicePages]
    by_cases h2 : pagesOk r.invoicePages = true
    · rw [if_pos h2, if_pos h2]
      dsimp only
      rw [runCtx_eq r.purchaseOrderPages]
      by_cases h3 : pagesOk r.purchaseOrderPages = true
      · rw [if_pos h3, if_pos h3]
        dsimp only
        rw [allDocs, foldDocs_append, foldDocs_append]
        rw [List.length_append, List.length_append, lineCount_append, lineCount_append]
        simp [Nat.add_assoc]
      · rw [if_neg h3, if_neg h3]
        rw [allDocs, foldDocs_append, foldDocs_append]
    · rw [if_neg h2, if_neg h2]
      rw [foldDocs_append]
  · rw [if_neg h1, if_neg h1]

/-- `deltaSync` in closed form for the Cache State: errors propagate with the
metadata untouched; success rewrites only `lastSync` and the counts,
preserving the other fields of the state read at entry. -/
theorem deltaSync_eq (c : CacheState) (r : RemoteData) (now : ℤ) (s : Store) :
    deltaSync c r now s =
      if pagesOk r.estimatePages then
        if pagesOk r.invoicePages then
          if pagesOk r.purchaseOrderPages then
            .ok (setCacheState { c with
              lastSync := now
              documentCount := getDocumentCount (foldDocs (allDocs r) s)
              itemDocumentCount := getItemDocumentCount (foldDocs (allDocs r) s) }
              (foldDocs (allDocs r) s))
          else .error (foldDocs (allDocs r) s)
        else .error (foldDocs (consumedDocs r.estimatePages ++
          consumedDocs r.invoicePages) s)
      else .error (foldDocs (consumedDocs r.estimatePages) s) := by
  rw [deltaSync]
  rw [runCtx_eq r.estimatePages]
  by_cases h1 : pagesOk r.estimatePages = true
  · rw [if_pos h1, if_pos h1]
    dsimp only
    rw [runCtx_eq r.invoicePages]
    by_cases h2 : pagesOk r.invoicePages = true
    · rw [if_pos h2, if_pos h2]
      dsimp only
      rw [runCtx_eq r.purchaseOrderPages]
      by_cases h3 : pagesOk r.purchaseOrderPages = true
      · rw [if_pos h3, if_pos h3]
        dsimp only
        rw [allDocs, foldDocs_append, foldDocs_append]
      · rw [if_neg h3, if_neg h3]
        rw [allDocs, foldDocs_append, foldDocs_append]
    · rw [if_neg h2, if_neg h2]
      rw [foldDocs_append]
  · rw [if_neg h1, if_neg h1]

/-- `setCacheState` only touches the metadata row. -/
theorem setCacheState_documents (c : CacheState) (s : Store) :
    (setCacheState c s).documents = s.documents := rfl

/-- `setCacheState` only touches the metadata row. -/
theorem setCacheState_item_documents (c : CacheState) (s : Store) :
    (setCacheState c s).item_documents = s.item_documents := rfl

/-- The re-synced document rows all carry synced ids, so the not-synced
filter removes them. -/
theorem lastOccMap_filter_nil (σ : List Document) :
    ((lastOcc σ).map docRowOf).filter (fun dr => dr.doc_id ∉ docIds σ) = [] := by
  rw [List.filter_eq_nil_iff]
  intro x hx
  obtain ⟨d, hd, rfl⟩ := List.mem_map.mp hx
  simp [docRowOf_doc_id, mem_lastOcc_docIds σ d hd]

/-- The re-synced line-item rows all carry synced ids, so the not-synced
filter removes them. -/
theorem flatRows_filter_nil (σ : List Document) :
    (flatRows (lastOcc σ)).filter (fun it => it.doc_id ∉ docIds σ) = [] := by
  rw [List.filter_eq_nil_iff]
  intro x hx
  have h1 := mem_flatRows_docIds (lastOcc σ) x hx
  simp [mem_docIds_lastOcc σ _ h1]

/-! ## Claim C1 -/

/-- The remote data for the C1 counterexample: one invoice with one line
item, served on a single page. -/
def c1doc : Document := ⟨"d", 5, 1, "2024-01-01", "c", 0, [⟨some "i", 1, 5⟩]⟩

/-- The C1 counterexample remote data set. -/
def c1remote : RemoteData := ⟨[.ok [c1doc]], [.notFound], [.notFound]⟩

/-- The store after the first full sync of `c1remote`. -/
def c1s1 : Store :=
  ⟨[⟨"d", 5, 1, "2024-01-01", "c", 0⟩], [⟨1, "i", "d", 1, 5⟩], 2,
    some ⟨0, 0, 1, 1, "a", 1⟩⟩

/-- The store after the second full sync of `c1remote`. -/
def c1s2 : Store :=
  ⟨[⟨"d", 5, 1, "2024-01-01", "c", 0⟩], [⟨2, "i", "d", 1, 5⟩], 3,
    some ⟨0, 0, 1, 1, "a", 1⟩⟩

/-- Claim C1 counterexample: running the same full sync twice over the same
remote data yields different `item_documents` tables — the surrogate
`AUTOINCREMENT` id of the re-inserted line item advances from 1 to 2 — and
correspondingly different `getItemDocuments` results. -/
theorem fullSync_not_idempotent_cex :
    fullSync "a" c1remote 0 emptyStore = .ok c1s1 ∧
    fullSync "a" c1remote 0 c1s1 = .ok c1s2 ∧
    c1s2.item_documents ≠ c1s1.item_documents ∧
    getItemDocuments "d" c1s2 ≠ getItemDocuments "d" c1s1 :=
  ⟨rfl, rfl, by decide, by decide⟩

/-- Claim C1 (amended): if a full sync over a remote data set succeeds, a
second full sync over the same data also succeeds and yields an identical
`documents` table and an `item_documents` table identical up to the
auto-assigned surrogate ids; consequently point reads, context reads and
line-item reads (up to surrogate ids) coincide after the two runs. -/
theorem fullSync_idempotent_amended (account account2 : String) (r : RemoteData)
    (now now2 : ℤ) (s0 s1 : Store)
    (h : fullSync account r now s0 = .ok s1) :
    ∃ s2, fullSync account2 r now2 s1 = .ok s2 ∧
      s2.documents = s1.documents ∧
      s2.item_documents.map stripId = s1.item_documents.map stripId ∧
      (∀ docId, getDocument docId s2 = getDocument docId s1) ∧
      (∀ cid, getDocumentsByContext cid s2 = getDocumentsByContext cid s1) ∧
      (∀ docId, (getItemDocuments docId s2).map stripId =
        (getItemDocuments docId s1).map stripId) := by
  rw [fullSync_eq] at h
  by_cases h1 : pagesOk r.estimatePages = true
  case neg => rw [if_neg h1] at h; simp at h
  rw [if_pos h1] at h
  by_cases h2 : pagesOk r.invoicePages = true
  case neg => rw [if_neg h2] at h; simp at h
  rw [if_pos h2] at h
  by_cases h3 : pagesOk r.purchaseOrderPages = true
  case neg => rw [if_neg h3] at h; simp at h
  rw [if_pos h3] at h
  have hs1 : s1 = setCacheState
      ⟨now, now, (allDocs r).length, lineCount (allDocs r), account, 1⟩
      (foldDocs (allDocs r) s0) := by
    injection h with h'
    exact h'.symm
  have hs1docs : s1.documents = s0.documents.filter
      (fun dr => dr.doc_id ∉ docIds (allDocs r)) ++ (lastOcc (allDocs r)).map docRowOf := by
    rw [hs1, setCacheState_documents, foldDocs_documents]
  have hs1items : s1.item_documents.map stripId =
      (s0.item_documents.map stripId).filter
        (fun it => it.doc_id ∉ docIds (allDocs r)) ++ flatRows (lastOcc (allDocs r)) := by
    rw [hs1, setCacheState_item_documents, foldDocs_item_documents,
      map_stripId_filter_notMem]
  have hdocs : (foldDocs (allDocs r) s1).documents = s1.documents := by
    rw [foldDocs_documents, hs1docs, List.filter_append, filter_idem,
      lastOccMap_filter_nil, List.append_nil]
  have hitemsEq : ((foldDocs (allDocs r) s1).item_documents).map stripId =
      s1.item_documents.map stripId := by
    rw [foldDocs_item_documents, map_stripId_filter_notMem, hs1items,
      List.filter_append, filter_idem, flatRows_filter_nil, List.append_nil]
  refine ⟨setCacheState
      ⟨now2, now2, (allDocs r).length, lineCount (allDocs r), account2, 1⟩
      (foldDocs (allDocs r) s1), ?_, ?_, ?_, ?_, ?_, ?_⟩
  · rw [fullSync_eq, if_pos h1, if_pos h2, if_pos h3]
  · rw [setCacheState_documents]
    exact hdocs
  · rw [setCacheState_item_documents]
    exact hitemsEq
  · intro docId
    rw [getDocument, getDocument, setCacheState_documents, hdocs]
  · intro cid
    rw [getDocumentsByContext, getDocumentsByContext, setCacheState_documents, hdocs]
  · intro docId
    rw [getItemDocuments, getItemDocuments, map_stripId_filter_eq,
      map_stripId_filter_eq, setCacheState_item_documents, hitemsEq]

/-- Witness for C1 at the concrete remote data of the counterexample. -/
theorem fullSync_idempotent_amended_witness :
    fullSync "a" c1remote 0 emptyStore = .ok c1s1 ∧
    ∃ s2, fullSync "a" c1remote 0 c1s1 = .ok s2 ∧
      s2.documents = c1s1.documents ∧
      s2.item_documents.map stripId = c1s1.item_documents.map stripId ∧
      (∀ docId, getDocument docId s2 = getDocument docId c1s1) ∧
      (∀ cid, getDocumentsByContext cid s2 = getDocumentsByContext cid c1s1) ∧
      (∀ docId, (getItemDocuments docId s2).map stripId =
        (getItemDocuments docId c1s1).map stripId) :=
  ⟨rfl, fullSync_idempotent_amended "a" "a" c1remote 0 0 emptyStore c1s1 rfl⟩

/-- If no match is found in the first part, search continues in the second. -/
theorem find?_append_of_none {α : Type} (l₁ l₂ : List α) (p : α → Bool)
    (h : l₁.find? p = none) : (l₁ ++ l₂).find? p = l₂.find? p := by
  induction l₁ with
  | nil => rfl
  | cons a t ih =>
    by_cases hp : p a = true
    · rw [List.find?_cons_of_pos _ hp] at h
      cases h
    · rw [List.find?_cons_of_neg _ hp] at h
      rw [List.cons_append, List.find?_cons_of_neg _ hp]
      exact ih h

/-- Searching the re-synced document rows for a synced id finds the processed
row (the last-occurrence ids are distinct). -/
theorem lastOcc_find (σ : List Document) (d : Document) (h : d ∈ lastOcc σ) :
    ((lastOcc σ).map docRowOf).find? (fun dr => dr.doc_id = d.id) =
      some (docRowOf d) := by
  induction σ with
  | nil => cases h
  | cons a σ' ih =>
    by_cases hmem : a.id ∈ docIds σ'
    · rw [lastOcc, if_pos hmem] at h ⊢
      exact ih h
    · rw [lastOcc, if_neg hmem] at h ⊢
      rcases List.mem_cons.mp h with rfl | h'
      · rw [List.map_cons, List.find?_cons_of_pos _ (by simp [docRowOf_doc_id])]
      · have hne : a.id ≠ d.id := fun hh =>
          hmem (by rw [hh]; exact mem_lastOcc_docIds σ' d h')
        rw [List.map_cons, List.find?_cons_of_neg _ (by simp [docRowOf_doc_id, hne])]
        exact ih h'

/-- Filtering the re-synced line items by a synced id yields exactly that
document's processed rows. -/
theorem flatRows_lastOcc_filter (σ : List Document) (d : Document)
    (h : d ∈ lastOcc σ) :
    (flatRows (lastOcc σ)).filter (fun it => it.doc_id = d.id) = itemRowsOf d := by
  induction σ with
  | nil => cases h
  | cons a σ' ih =>
    by_cases hmem : a.id ∈ docIds σ'
    · rw [lastOcc, if_pos hmem] at h ⊢
      exact ih h
    · rw [lastOcc, if_neg hmem] at h ⊢
      rw [show flatRows (a :: lastOcc σ') = itemRowsOf a ++ flatRows (lastOcc σ')
        from rfl, List.filter_append]
      rcases List.mem_cons.mp h with rfl | h'
      · have h1 : (itemRowsOf d).filter (fun it => it.doc_id = d.id) =
            itemRowsOf d := by
          rw [List.filter_eq_self]
          intro x hx
          simp [itemRowsOf_doc_id d x hx]
        have h2 : (flatRows (lastOcc σ')).filter (fun it => it.doc_id = d.id) = [] := by
          rw [List.filter_eq_nil_iff]
          intro x hx
          have hin := mem_docIds_lastOcc σ' _ (mem_flatRows_docIds _ x hx)
          simp
          exact fun hh => hmem (hh ▸ hin)
        rw [h1, h2, List.append_nil]
      · have h1 : (itemRowsOf a).filter (fun it => it.doc_id = d.id) = [] := by
          rw [List.filter_eq_nil_iff]
          intro x hx
          have hxa := itemRowsOf_doc_id a x hx
          have hne : a.id ≠ d.id := fun hh =>
            hmem (by rw [hh]; exact mem_lastOcc_docIds σ' d h')
          simp [hxa, hne]
        rw [h1, List.nil_append]
        exact ih h'

/-! ## Claim C3 -/

/-- Claim C3: when a sync run aborts with an error, the Cache State record is
not written — the aborted store carries the initial metadata, so `lastSync`
does not advance — while the store equals the fold of the documents processed
before the failure (each such document and its line items remain readable);
the Cache State is replaced only when a run completes successfully, a full
run setting both timestamps to now and a delta run advancing `lastSync`
while preserving `lastFullSync`. -/
theorem sync_abort_semantics (account : String) (r : RemoteData) (now : ℤ)
    (s : Store) :
    (∀ s', fullSync account r now s = .error s' →
      s'.cache_meta = s.cache_meta ∧
      ∃ processed : List Document, s' = foldDocs processed s ∧
        ∀ d ∈ lastOcc processed,
          getDocument d.id s' = some (docRowOf d) ∧
          (getItemDocuments d.id s').map stripId = itemRowsOf d) ∧
    (∀ s'', fullSync account r now s = .ok s'' →
      ∃ c, s''.cache_meta = some c ∧ c.lastSync = now ∧ c.lastFullSync = now) ∧
    (∀ c s', deltaSync c r now s = .error s' → s'.cache_meta = s.cache_meta) ∧
    (∀ c s'', deltaSync c r now s = .ok s'' →
      ∃ c', s''.cache_meta = some c' ∧ c'.lastSync = now ∧
        c'.lastFullSync = c.lastFullSync ∧ c'.accountName = c.accountName) := by
  have key : ∀ (processed : List Document) (s' : Store), foldDocs processed s = s' →
      ∀ d ∈ lastOcc processed, getDocument d.id s' = some (docRowOf d) ∧
        (getItemDocuments d.id s').map stripId = itemRowsOf d := by
    intro processed s' hs' d hd
    subst hs'
    constructor
    · rw [getDocument, foldDocs_documents, find?_append_of_none]
      · exact lastOcc_find processed d hd
      · rw [List.find?_eq_none]
        intro x hx
        have hxm := List.mem_filter.mp hx
        have hnotin : x.doc_id ∉ docIds processed := by simpa using hxm.2
        have hdid := mem_lastOcc_docIds processed d hd
        simp
        exact fun hh => hnotin (hh ▸ hdid)
    · rw [getItemDocuments, map_stripId_filter_eq, foldDocs_item_documents,
        map_stripId_filter_notMem, List.filter_append]
      have h1 : (((s.item_documents.map stripId).filter
          (fun it => it.doc_id ∉ docIds processed)).filter
            (fun it => it.doc_id = d.id)) = [] := by
        rw [List.filter_eq_nil_iff]
        intro x hx
        have hxm := List.mem_filter.mp hx
        have hnotin : x.doc_id ∉ docIds processed := by simpa using hxm.2
        have hdid := mem_lastOcc_docIds processed d hd
        simp
        exact fun hh => hnotin (hh ▸ hdid)
      rw [h1, List.nil_append, flatRows_lastOcc_filter processed d hd]
  have herr : ∀ (X : List Document) (s' : Store), foldDocs X s = s' →
      s'.cache_meta = s.cache_meta ∧
      ∃ processed : List Document, s' = foldDocs processed s ∧
        ∀ d ∈ lastOcc processed,
          getDocument d.id s' = some (docRowOf d) ∧
          (getItemDocuments d.id s').map stripId = itemRowsOf d := by
    intro X s' h'
    exact ⟨by rw [← h', foldDocs_cache_meta], X, h'.symm, key X s' h'⟩
  refine ⟨?_, ?_, ?_, ?_⟩
  · intro s' h
    rw [fullSync_eq] at h
    by_cases h1 : pagesOk r.estimatePages = true
    case neg =>
      rw [if_neg h1] at h
      injection h with h'
      exact herr _ _ h'
    rw [if_pos h1] at h
    by_cases h2 : pagesOk r.invoicePages = true
    case neg =>
      rw [if_neg h2] at h
      injection h with h'
      exact herr _ _ h'
    rw [if_pos h2] at h
    by_cases h3 : pagesOk r.purchaseOrderPages = true
    case neg =>
      rw [if_neg h3] at h
      injection h with h'
      exact herr _ _ h'
    rw [if_pos h3] at h
    cases h
  · intro s'' h
    rw [fullSync_eq] at h
    by_cases h1 : pagesOk r.estimatePages = true
    case neg => rw [if_neg h1] at h; cases h
    rw [if_pos h1] at h
    by_cases h2 : pagesOk r.invoicePages = true
    case neg => rw [if_neg h2] at h; cases h
    rw [if_pos h2] at h
    by_cases h3 : pagesOk r.purchaseOrderPages = true
    case neg => rw [if_neg h3] at h; cases h
    rw [if_pos h3] at h
    injection h with h'
    exact ⟨_, by rw [← h']; rfl, rfl, rfl⟩
  · intro c s' h
    rw [deltaSync_eq] at h
    by_cases h1 : pagesOk r.estimatePages = true
    case neg =>
      rw [if_neg h1] at h
      injection h with h'
      rw [← h', foldDocs_cache_meta]
    rw [if_pos h1] at h
    by_cases h2 : pagesOk r.invoicePages = true
    case neg =>
      rw [if_neg h2] at h
      injection h with h'
      rw [← h', foldDocs_cache_meta]
    rw [if_pos h2] at h
    by_cases h3 : pagesOk r.purchaseOrderPages = true
    case neg =>
      rw [if_neg h3] at h
      injection h with h'
      rw [← h', foldDocs_cache_meta]
    rw [if_pos h3] at h
    cases h
  · intro c s'' h
    rw [deltaSync_eq] at h
    by_cases h1 : pagesOk r.estimatePages = true
    case neg => rw [if_neg h1] at h; cases h
    rw [if_pos h1] at h
    by_cases h2 : pagesOk r.invoicePages = true
    case neg => rw [if_neg h2] at h; cases h
    rw [if_pos h2] at h
    by_cases h3 : pagesOk r.purchaseOrderPages = true
    case neg => rw [if_neg h3] at h; cases h
    rw [if_pos h3] at h
    injection h with h'
    exact ⟨{ c with
      lastSync := now
      documentCount := getDocumentCount (foldDocs (allDocs r) s)
      itemDocumentCount := getItemDocumentCount (foldDocs (allDocs r) s) },
      by rw [← h']; rfl, rfl, rfl, rfl⟩

/-- Remote data whose very first page fetch fails with a non-404 error. -/
def c3remote : RemoteData := ⟨[.err], [.notFound], [.notFound]⟩

/-- Witness for C3: a full sync aborted on its first page leaves the Cache
State untouched. -/
theorem sync_abort_semantics_witness :
    fullSync "a" c3remote 5 emptyStore = .error emptyStore ∧
    (emptyStore.cache_meta = emptyStore.cache_meta ∧
      ∃ processed : List Document, emptyStore = foldDocs processed emptyStore ∧
        ∀ d ∈ lastOcc processed,
          getDocument d.id emptyStore = some (docRowOf d) ∧
          (getItemDocuments d.id emptyStore).map stripId = itemRowsOf d) :=
  ⟨rfl, (sync_abort_semantics "a" c3remote 5 emptyStore).1 emptyStore rfl⟩

/-! ## Claim C4 -/

/-- Claim C4: `isCacheStale` is true exactly when no Cache State exists or
`now − lastSync` strictly exceeds the threshold; the threshold comes from the
environment variable when set, else the constructor preference, else 3600;
and immediately after a successful full sync at the current time the cache is
not stale (for a non-negative threshold). -/
theorem isCacheStale_spec (v p θ nowSec : ℤ) (pref : Option ℤ)
    (meta : Option CacheState) :
    staleThreshold (some v) pref = v ∧
    staleThreshold none (some p) = p ∧
    staleThreshold none none = 3600 ∧
    (isCacheStale θ nowSec meta = true ↔
      meta = none ∨ ∃ c, meta = some c ∧ θ < nowSec - c.lastSync) ∧
    (∀ (account : String) (r : RemoteData) (s s'' : Store), 0 ≤ θ →
      fullSync account r nowSec s = .ok s'' →
      isCacheStale θ nowSec s''.cache_meta = false) := by
  refine ⟨rfl, rfl, rfl, ?_, ?_⟩
  · cases meta with
    | none => simp [isCacheStale]
    | some c =>
      simp only [isCacheStale, decide_eq_true_eq, reduceCtorEq, false_or,
        Option.some.injEq]
      constructor
      · intro h
        exact ⟨c, rfl, by omega⟩
      · rintro ⟨c', hc', h⟩
        cases hc'
        omega
  · intro account r s s'' hθ hok
    rw [fullSync_eq] at hok
    by_cases h1 : pagesOk r.estimatePages = true
    case neg => rw [if_neg h1] at hok; cases hok
    rw [if_pos h1] at hok
    by_cases h2 : pagesOk r.invoicePages = true
    case neg => rw [if_neg h2] at hok; cases hok
    rw [if_pos h2] at hok
    by_cases h3 : pagesOk r.purchaseOrderPages = true
    case neg => rw [if_neg h3] at hok; cases hok
    rw [if_pos h3] at hok
    injection hok with h'
    rw [← h']
    simp [isCacheStale, setCacheState]
    omega

/-- Remote data with no documents at all (every kind 404s on page 1). -/
def c4remote : RemoteData := ⟨[.notFound], [.notFound], [.notFound]⟩

/-- Witness for C4: default threshold, and freshness right after a successful
sync at time 7. -/
theorem isCacheStale_spec_witness :
    staleThreshold none none = 3600 ∧ (0 : ℤ) ≤ 3600 ∧
    fullSync "a" c4remote 7 emptyStore =
      .ok ⟨[], [], 1, some ⟨7, 7, 0, 0, "a", 1⟩⟩ ∧
    isCacheStale 3600 7 (Store.cache_meta ⟨[], [], 1, some ⟨7, 7, 0, 0, "a", 1⟩⟩) =
      false :=
  ⟨(isCacheStale_spec 0 0 3600 7 none none).2.2.1, by norm_num, rfl,
    (isCacheStale_spec 0 0 3600 7 none none).2.2.2.2 "a" c4remote emptyStore
      ⟨[], [], 1, some ⟨7, 7, 0, 0, "a", 1⟩⟩ (by norm_num) rfl⟩

end Spec2Proof
